import Mathlib

/-!
Verification development for the OCR-to-barcode reconciliation engine of
`scripts/barcode_ocr_match.py` (Realtime-Item-Tracker).

The Python source is shallowly embedded: strings are Lean `String`s
(processed as `List Char`), Python floats are modelled exactly as rationals
(`ℚ`), Python regexes are compiled by hand into a small backtracking regex
engine (`RE` below) that mirrors Python `re` semantics (leftmost search,
greedy/lazy repetition with backtracking, word boundaries, lookarounds,
case-insensitive matching) restricted to the ASCII constructs the source
actually uses.  All definitions are executable and use structural recursion
only, so concrete runs evaluate by `decide`/`rfl`.
-/

/-! ### Character classes (ASCII, as used by the source's regexes) -/

/-- Python `\s` restricted to ASCII: space, tab, newline, carriage return,
vertical tab, form feed.  The source only feeds it ASCII barcode text. -/
def pySpace (c : Char) : Bool :=
  c = ' ' || c = '\t' || c = '\n' || c = '\x0d' || c = '\x0b' || c = '\x0c'

/-- ASCII decimal digit, Python `\d` on ASCII input. -/
def pyDigit (c : Char) : Bool := '0' ≤ c && c ≤ '9'

/-- ASCII letter `[A-Za-z]`. -/
def asciiAlpha (c : Char) : Bool := ('A' ≤ c && c ≤ 'Z') || ('a' ≤ c && c ≤ 'z')

/-- `[A-Za-z0-9]`, the `ALNUM` helper class of the source. -/
def asciiAlnum (c : Char) : Bool := asciiAlpha c || pyDigit c

/-- Python `\w` on ASCII input: letters, digits, underscore. -/
def pyWord (c : Char) : Bool := asciiAlnum c || c = '_'

/-- Case-insensitive character equality (re.I on ASCII). -/
def ciEq (a b : Char) : Bool := a.toUpper = b.toUpper

/-- The label character class `[A-Za-z0-9 /#\-\(\)]` of the source. -/
def labelCls (c : Char) : Bool :=
  asciiAlnum c || c = ' ' || c = '/' || c = '#' || c = '-' || c = '(' || c = ')'

/-! ### A small backtracking regex engine

`RE` covers exactly the constructs appearing in the source's patterns.
Repetition is restricted to character classes (every repetition in the source
repeats a single-character class), which keeps the engine structurally
recursive.  Matching is CPS-style so that backtracking follows Python's
preference order: alternatives left to right, greedy repetition longest
first, lazy repetition shortest first. -/

inductive RE where
  /-- empty pattern -/
  | eps : RE
  /-- single character from a class -/
  | cls (p : Char → Bool) : RE
  /-- concatenation -/
  | seq (r1 r2 : RE) : RE
  /-- alternation, left preferred -/
  | alt (r1 r2 : RE) : RE
  /-- greedy `?` -/
  | opt (r : RE) : RE
  /-- `p{lo,hi}` over a character class; `hi = none` means unbounded;
  `lzy = true` is the lazy variant `+?`/`*?` -/
  | rep (p : Char → Bool) (lo : Nat) (hi : Option Nat) (lzy : Bool) : RE
  /-- capturing group -/
  | group (idx : Nat) (r : RE) : RE
  /-- lookahead `(?=r)` / `(?!r)` -/
  | look (neg : Bool) (r : RE) : RE
  /-- single-character lookbehind `(?<=[p])` / `(?<![p])` -/
  | lookb (neg : Bool) (p : Char → Bool) : RE
  /-- word boundary `\b` -/
  | wordB : RE
  /-- `^` (no MULTILINE anywhere in the source) -/
  | bos : RE
  /-- `$` (end of string, or just before a final newline) -/
  | eos : RE

/-- Group captures: group index to half-open span in the subject string. -/
def Caps := Nat → Option (Nat × Nat)

def capsEmpty : Caps := fun _ => none

def capsSet (cs : Caps) (i : Nat) (sp : Nat × Nat) : Caps :=
  fun n => if n = i then some sp else cs n

/-- Match result: end position and captures. -/
def MRes := Nat × Caps

/-- Length of the run of characters satisfying `p` starting at `pos`. -/
def runLen (full : List Char) (pos : Nat) (p : Char → Bool) : Nat :=
  ((full.drop pos).takeWhile p).length

/-- Greedy repetition driver: try `n, n-1, …, lo` repetitions. -/
def repTryGreedy (kf : Nat → Option MRes) (lo : Nat) : Nat → Option MRes
  | 0 => if lo = 0 then kf 0 else none
  | n + 1 => if n + 1 < lo then none else (kf (n + 1)).orElse fun _ => repTryGreedy kf lo n

/-- Lazy repetition driver: try `lo, lo+1, …, lo+fuel` repetitions. -/
def repTryLazy (kf : Nat → Option MRes) : Nat → Nat → Option MRes
  | _, 0 => none
  | n, fuel + 1 => (kf n).orElse fun _ => repTryLazy kf (n + 1) fuel

/-- Is the character at `pos` (if any) a word character? -/
def wordAt (full : List Char) (pos : Nat) : Bool :=
  match full.get? pos with
  | some c => pyWord c
  | none => false

/-- Character just before `pos`, if any. -/
def charBefore (full : List Char) (pos : Nat) : Option Char :=
  match pos with
  | 0 => none
  | p + 1 => full.get? p

/-- CPS matcher.  `k` receives the position after the construct together with
the captures accumulated so far; the first overall success (in Python's
backtracking order) is returned. -/
def reMatch (full : List Char) : RE → Nat → Caps → (Nat → Caps → Option MRes) → Option MRes
  | .eps, pos, cs, k => k pos cs
  | .cls p, pos, cs, k =>
      match full.get? pos with
      | some c => if p c then k (pos + 1) cs else none
      | none => none
  | .seq r1 r2, pos, cs, k =>
      reMatch full r1 pos cs (fun pos2 cs2 => reMatch full r2 pos2 cs2 k)
  | .alt r1 r2, pos, cs, k =>
      (reMatch full r1 pos cs k).orElse fun _ => reMatch full r2 pos cs k
  | .opt r, pos, cs, k =>
      (reMatch full r pos cs k).orElse fun _ => k pos cs
  | .rep p lo hi lzy, pos, cs, k =>
      let run := runLen full pos p
      let cap := match hi with | none => run | some h => min run h
      if lzy then
        if lo ≤ cap then repTryLazy (fun n => k (pos + n) cs) lo (cap + 1 - lo) else none
      else
        repTryGreedy (fun n => k (pos + n) cs) lo cap
  | .group i r, pos, cs, k =>
      reMatch full r pos cs (fun pos2 cs2 => k pos2 (capsSet cs2 i (pos, pos2)))
  | .look neg r, pos, cs, k =>
      let hit := (reMatch full r pos cs (fun p2 c2 => some (p2, c2))).isSome
      if neg then (if hit then none else k pos cs) else (if hit then k pos cs else none)
  | .lookb neg p, pos, cs, k =>
      let hit := match charBefore full pos with
        | some c => p c
        | none => false
      if neg then (if hit then none else k pos cs) else (if hit then k pos cs else none)
  | .wordB, pos, cs, k =>
      let wb := match charBefore full pos with
        | some c => pyWord c
        | none => false
      if wb ≠ wordAt full pos then k pos cs else none
  | .bos, pos, cs, k => if pos = 0 then k pos cs else none
  | .eos, pos, cs, k =>
      if pos = full.length ∨ (pos + 1 = full.length ∧ full.get? pos = some '\n') then
        k pos cs
      else none

/-- Top-level match attempt at a fixed position (Python match object). -/
def reMatchTop (full : List Char) (r : RE) (pos : Nat) : Option MRes :=
  reMatch full r pos capsEmpty (fun p c => some (p, c))

/-- `re.Pattern.match`: anchored at position 0. -/
def pyMatch (r : RE) (s : String) : Option MRes := reMatchTop s.data r 0

/-- `re.Pattern.fullmatch`: the whole string must be consumed. -/
def pyFullmatch (r : RE) (s : String) : Option Caps :=
  match reMatch s.data r 0 capsEmpty
      (fun p c => if p = s.data.length then some (p, c) else none) with
  | some (_, cs) => some cs
  | none => none

/-- Leftmost search starting from `pos`; `fuel` bounds the positions tried. -/
def reSearchFrom (full : List Char) (r : RE) : Nat → Nat → Option (Nat × Nat × Caps)
  | _, 0 => none
  | pos, fuel + 1 =>
      match reMatchTop full r pos with
      | some (e, cs) => some (pos, e, cs)
      | none => reSearchFrom full r (pos + 1) fuel

/-- `re.Pattern.search`. -/
def pySearch (r : RE) (s : String) : Option (Nat × Nat × Caps) :=
  reSearchFrom s.data r 0 (s.data.length + 1)

/-- Boolean search (`bool(pat.search(s))`). -/
def pyTest (r : RE) (s : String) : Bool := (pySearch r s).isSome

/-- `re.Pattern.finditer`: non-overlapping leftmost matches; an empty match
advances the scan position by one like Python does. -/
def pyFindIterGo (full : List Char) (r : RE) : Nat → Nat → List (Nat × Nat × Caps)
  | _, 0 => []
  | pos, fuel + 1 =>
      match reSearchFrom full r pos (full.length + 1 - pos) with
      | none => []
      | some (s, e, cs) =>
          (s, e, cs) :: pyFindIterGo full r (if e = s then s + 1 else e) fuel
def pyFindIter (r : RE) (s : String) : List (Nat × Nat × Caps) :=
  pyFindIterGo s.data r 0 (s.data.length + 1)

/-- Substring `[st, en)` of a string. -/
def sliceStr (s : String) (st en : Nat) : String :=
  ((s.data.drop st).take (en - st)).asString

/-- Captured group text, `m.group i`. -/
def capStr (s : String) (cs : Caps) (i : Nat) : Option String :=
  (cs i).map fun sp => sliceStr s sp.1 sp.2

/-! ### Pattern combinator shorthands -/

def reSeqL (l : List RE) : RE := l.foldr RE.seq RE.eps

/-- Case-insensitive literal string. -/
def ciStr (s : String) : RE := reSeqL (s.data.map fun c => RE.cls (ciEq c))

def reChar (c : Char) : RE := RE.cls (fun x => x = c)

/-- `\s*` -/
def wsStar : RE := RE.rep pySpace 0 none false

/-- `\d{lo,hi}` -/
def digits (lo : Nat) (hi : Option Nat) : RE := RE.rep pyDigit lo hi false

/-! ### The source's compiled patterns, transliterated

Python source, `barcode_ocr_match.py` lines 56-76. -/

/-- `SEP_LINE = ^[-\s]{8,}$` (used with `.match`). -/
def sepLineRE : RE :=
  reSeqL [RE.bos, RE.rep (fun c => c = '-' || pySpace c) 8 none false, RE.eos]

/-- `TIME_RX = \b(\d{1,2}):(\d{2})(?::(\d{2}))?\s*(AM|PM)?\b` (re.I). -/
def timeRE : RE :=
  reSeqL [RE.wordB, RE.group 1 (digits 1 (some 2)), reChar ':',
          RE.group 2 (digits 2 (some 2)),
          RE.opt (reSeqL [reChar ':', RE.group 3 (digits 2 (some 2))]),
          wsStar, RE.opt (RE.group 4 (RE.alt (ciStr "AM") (ciStr "PM"))), RE.wordB]

/-- `FULL_TIME_RX = ^\s*(\d{1,2}):(\d{2})(?::(\d{2}))?\s*(AM|PM)?\s*$` (re.I). -/
def fullTimeRE : RE :=
  reSeqL [RE.bos, wsStar, RE.group 1 (digits 1 (some 2)), reChar ':',
          RE.group 2 (digits 2 (some 2)),
          RE.opt (reSeqL [reChar ':', RE.group 3 (digits 2 (some 2))]),
          wsStar, RE.opt (RE.group 4 (RE.alt (ciStr "AM") (ciStr "PM"))), wsStar, RE.eos]

/-- `DATE_RX1`: digits 1-2, a slash-or-hyphen separator, digits 1-2, another
separator, digits 2-4, all word-bounded. -/
def dateRE1 : RE :=
  reSeqL [RE.wordB, RE.group 1 (digits 1 (some 2)), RE.cls (fun c => c = '/' || c = '-'),
          RE.group 2 (digits 1 (some 2)), RE.cls (fun c => c = '/' || c = '-'),
          RE.group 3 (digits 2 (some 4)), RE.wordB]

/-- `DATE_RX2 = \b(\d{4})-(\d{2})-(\d{2})\b`. -/
def dateRE2 : RE :=
  reSeqL [RE.wordB, RE.group 1 (digits 4 (some 4)), reChar '-',
          RE.group 2 (digits 2 (some 2)), reChar '-', RE.group 3 (digits 2 (some 2)), RE.wordB]

/-- `DATE_RX = DATE_RX1 | DATE_RX2` (only ever used as a boolean search,
so the shifted group numbering of the Python concatenation is immaterial). -/
def dateRE : RE := RE.alt dateRE1 dateRE2

/-- `TRK_RX = \b(?:TRK|TRUCK)\s*[- ]?\d{2,6}\b` (re.I). -/
def trkRE : RE :=
  reSeqL [RE.wordB, RE.alt (ciStr "TRK") (ciStr "TRUCK"), wsStar,
          RE.opt (RE.cls (fun c => c = '-' || c = ' ')), digits 2 (some 6), RE.wordB]

/-- `WH_RX = \bWH-?\d{1,3}\b` (re.I). -/
def whRE : RE :=
  reSeqL [RE.wordB, ciStr "WH", RE.opt (reChar '-'), digits 1 (some 3), RE.wordB]

/-- `RACK_RX = \b(?:WH-?\d{1,3}|[A-Z]\d{2,3})\b` (re.I; re.I makes `[A-Z]`
match any ASCII letter). -/
def rackRE : RE :=
  reSeqL [RE.wordB,
          RE.alt (reSeqL [ciStr "WH", RE.opt (reChar '-'), digits 1 (some 3)])
                 (reSeqL [RE.cls asciiAlpha, digits 2 (some 3)]),
          RE.wordB]

/-- `[A-Z0-9\-]` under re.I. -/
def alnumHyp (c : Char) : Bool := asciiAlnum c || c = '-'

/-- `ALNUM_LONG = (?=[A-Z0-9\-]*\d)[A-Z0-9\-]{8,}` (re.I). -/
def alnumLongRE : RE :=
  RE.seq (RE.look false (RE.seq (RE.rep alnumHyp 0 none false) (RE.cls pyDigit)))
         (RE.rep alnumHyp 8 none false)

/-- `CODE_SHORT_RX = (?=[A-Z0-9]*\d)[A-Z0-9\-]{5,12}` (re.I; note the
lookahead class has no hyphen). -/
def codeShortRE : RE :=
  RE.seq (RE.look false (RE.seq (RE.rep asciiAlnum 0 none false) (RE.cls pyDigit)))
         (RE.rep alnumHyp 5 (some 12) false)

/-- `DIGIT_ONLY_RX = ^\d{1,4}$` (used with `.match`). -/
def digitOnlyRE : RE := reSeqL [RE.bos, digits 1 (some 4), RE.eos]

/-- The label shape `[A-Za-z][A-Za-z0-9 /#\-\(\)]{1,32}` shared by several
patterns. -/
def labelShapeRE : RE := RE.seq (RE.cls asciiAlpha) (RE.rep labelCls 1 (some 32) false)

/-- `LABEL_COLON_RX = ([A-Za-z][A-Za-z0-9 /#\-\(\)]{1,32})\s*:\s*`. -/
def labelColonRE : RE :=
  reSeqL [RE.group 1 labelShapeRE, wsStar, reChar ':', wsStar]

/-- `CELL_COLON_RX = ^\s*[A-Za-z][A-Za-z0-9 /#\-\(\)]{1,32}\s*:\s*\S`
(used with `.match`). -/
def cellColonRE : RE :=
  reSeqL [RE.bos, wsStar, labelShapeRE, wsStar, reChar ':', wsStar,
          RE.cls (fun c => !pySpace c)]

/-- The inline pair pattern of `parse_pairs_for_context` (line 297):
`([A-Za-z][A-Za-z0-9 /#\-\(\)]{1,32})\s*:\s*([^\t]+?)(?=(?:\s{2,}|\t+|$|[A-Za-z][A-Za-z0-9 /#\-\(\)]{1,32}\s*:))`. -/
def inlinePairRE : RE :=
  reSeqL [RE.group 1 labelShapeRE, wsStar, reChar ':', wsStar,
          RE.group 2 (RE.rep (fun c => c ≠ '\t') 1 none true),
          RE.look false
            (RE.alt (RE.rep pySpace 2 none false)
              (RE.alt (RE.rep (fun c => c = '\t') 1 none false)
                (RE.alt RE.eos (reSeqL [labelShapeRE, wsStar, reChar ':']))))]

/-- The colon-cell split pattern of `parse_pairs_for_context` (line 332):
`^\s*([A-Za-z][A-Za-z0-9 /#\-\(\)]{1,32})\s*:\s*(.+)$` (used with `.match`). -/
def colonCellSplitRE : RE :=
  reSeqL [RE.bos, wsStar, RE.group 1 labelShapeRE, wsStar, reChar ':', wsStar,
          RE.group 2 (RE.rep (fun c => c ≠ '\n') 1 none false), RE.eos]

/-- `\s{2,}` (row splitting). -/
def twoSpacesRE : RE := RE.rep pySpace 2 none false

/-- `\t+` (row splitting). -/
def tabsRE : RE := RE.rep (fun c => c = '\t') 1 none false

/-! ### Normalizer primitives (source lines 79-115) -/

/-- Python `str.strip()` on a char list (ASCII whitespace). -/
def pyStripL (l : List Char) : List Char :=
  ((l.dropWhile pySpace).reverse.dropWhile pySpace).reverse

/-- Python `str.strip()`. -/
def pyStrip (s : String) : String := (pyStripL s.data).asString

/-- Helper for `re.sub(r"\s+", " ", s)`: collapse whitespace runs to single
spaces.  The flag records whether the previous character was whitespace. -/
def collapseWsGo : Bool → List Char → List Char
  | _, [] => []
  | prevSp, c :: rest =>
      if pySpace c then
        if prevSp then collapseWsGo true rest else ' ' :: collapseWsGo true rest
      else c :: collapseWsGo false rest

/-- `norm_text(s) = re.sub(r"\s+", " ", s or "").strip()`. -/
def normText (s : String) : String := pyStrip (collapseWsGo false s.data).asString

/-- `norm_case_space(s) = norm_text(s).upper()` (ASCII upper). -/
def normCaseSpace (s : String) : String :=
  ((normText s).data.map Char.toUpper).asString

/-- Helper for `re.sub(r"[^a-z0-9]+", " ", s)` over lowercase input. -/
def lowerAlnum (c : Char) : Bool := ('a' ≤ c && c ≤ 'z') || pyDigit c

def collapseNonAlnumGo : Bool → List Char → List Char
  | _, [] => []
  | prevBad, c :: rest =>
      if lowerAlnum c then c :: collapseNonAlnumGo false rest
      else if prevBad then collapseNonAlnumGo true rest
      else ' ' :: collapseNonAlnumGo true rest

/-- `norm_label(s) = re.sub(r"[^a-z0-9]+", " ", (s or "").lower()).strip()`
(ASCII lower). -/
def normLabel (s : String) : String :=
  pyStrip (collapseNonAlnumGo false (s.data.map Char.toLower)).asString

/-- `get_lines`: normalize newlines, then split on `\n`.  The fused newline
rewrite is equivalent to the source's sequential
`replace("\r\n","\n").replace("\r","\n")`. -/
def normalizeNewlines : List Char → List Char
  | '\x0d' :: '\n' :: rest => '\n' :: normalizeNewlines rest
  | '\x0d' :: rest => '\n' :: normalizeNewlines rest
  | c :: rest => c :: normalizeNewlines rest
  | [] => []

def splitOnNl (l : List Char) : List (List Char) :=
  l.foldr
    (fun c acc =>
      match acc with
      | cur :: rest => if c = '\n' then [] :: cur :: rest else (c :: cur) :: rest
      | [] => [[c]])
    [[]]

def getLines (s : String) : List String :=
  (splitOnNl (normalizeNewlines s.data)).map List.asString

/-- `find_line_bounds` start: `text.rfind("\n", 0, idx) + 1`. -/
def findLineStart (t : List Char) (idx : Nat) : Nat :=
  ((List.range idx).filter fun k => t.get? k = some '\n').foldl (fun _ k => k + 1) 0

/-- `find_line_bounds` end: `text.find("\n", idx)`, or `len(text)`. -/
def findLineEnd (t : List Char) (idx : Nat) : Nat :=
  match (List.range' idx (t.length - idx)).find? (fun k => t.get? k = some '\n') with
  | some k => k
  | none => t.length

/-! ### Time and date normalization (source lines 118-167) -/

/-- Digit-string to Nat (`int(...)` on regex digit groups). -/
def digitsToNat (s : String) : Nat :=
  s.data.foldl (fun acc c => acc * 10 + (c.toNat - '0'.toNat)) 0

def strUpper (s : String) : String := (s.data.map Char.toUpper).asString

/-- `norm_time_tuple_full`: strict whole-string time parse.  Returns
`(h24, minute, second, meridian)`. -/
def normTimeTupleFull (s : String) : Option (Nat × Nat × Nat × Option String) :=
  if s = "" then none
  else
    match pyFullmatch fullTimeRE s with
    | none => none
    | some cs =>
        let hh := digitsToNat ((capStr s cs 1).getD "")
        let mm := digitsToNat ((capStr s cs 2).getD "")
        let ss := digitsToNat ((capStr s cs 3).getD "0")
        let mer : Option String := (capStr s cs 4).map strUpper
        let h24 := if mer = some "PM" ∧ hh ≠ 12 then hh + 12 else hh
        let h24 := if mer = some "AM" ∧ hh = 12 then 0 else h24
        some (h24, mm, ss, mer)

/-- `times_equal_flexible`: ignore seconds, respect AM/PM context. -/
def timesEqualFlexible (ocrVal bcVal : String) : Bool :=
  match normTimeTupleFull ocrVal, normTimeTupleFull bcVal with
  | some (ah, am, _, amer), some (bh, bm, _, bmer) =>
      if amer.isSome || bmer.isSome then
        if amer.isNone || bmer.isNone then false
        else if amer ≠ bmer then false
        else decide (ah = bh) && decide (am = bm)
      else decide (ah = bh) && decide (am = bm)
  | _, _ => false

/-- `norm_date_tuple`: coerce a supported date string to `(year, month, day)`.
Tries the ISO pattern first, then the day-month pattern with the swap
heuristic, exactly as the source does. -/
def normDateTuple (s : String) : Option (Nat × Nat × Nat) :=
  if s = "" then none
  else
    match pySearch dateRE2 s with
    | some (_, _, cs) =>
        let y := digitsToNat ((capStr s cs 1).getD "")
        let mo := digitsToNat ((capStr s cs 2).getD "")
        let d := digitsToNat ((capStr s cs 3).getD "")
        if 1 ≤ mo ∧ mo ≤ 12 ∧ 1 ≤ d ∧ d ≤ 31 then some (y, mo, d) else none
    | none =>
        match pySearch dateRE1 s with
        | none => none
        | some (_, _, cs) =>
            let a := digitsToNat ((capStr s cs 1).getD "")
            let b := digitsToNat ((capStr s cs 2).getD "")
            let y := digitsToNat ((capStr s cs 3).getD "")
            let dm := if a > 12 ∧ b ≤ 12 then (a, b) else (b, a)
            let d := dm.1
            let mo := dm.2
            if 1 ≤ mo ∧ mo ≤ 12 ∧ 1 ≤ d ∧ d ≤ 31 then some (y, mo, d) else none

/-- `dates_equal_flexible`. -/
def datesEqualFlexible (ocrVal bcVal : String) : Bool :=
  match normDateTuple ocrVal, normDateTuple bcVal with
  | some a, some b => a = b
  | _, _ => false

/-! ### Token-anchored strict matching (source lines 170-201) -/

/-- One element of the dynamically built anchored pattern: a literal space in
the value becomes `\s+` (the source escapes the value and replaces the
escaped space), every other character is a case-insensitive literal. -/
def escElem (c : Char) : RE :=
  if c = ' ' then RE.rep pySpace 1 none false else RE.cls (ciEq c)

/-- `re.search(ALNUM + "$", s)`: does the value end (up to a final newline)
with an ASCII alphanumeric character? -/
def endsAlnum (v : List Char) : Bool :=
  match v.reverse with
  | [] => false
  | c :: rest =>
      asciiAlnum c ||
        (c = '\n' && (match rest with
          | c2 :: _ => asciiAlnum c2
          | [] => false))

/-- `anchored_value_regex(value)`: escaped value with whitespace-tolerant
internal spaces, negative alphanumeric lookbehind/lookahead when the value
starts/ends with an alphanumeric character (re.I). -/
def anchoredValueRE (v : String) : RE :=
  let body := reSeqL (v.data.map escElem)
  let pre := match v.data.head? with
    | some c => if asciiAlnum c then RE.lookb true asciiAlnum else RE.eps
    | none => RE.eps
  let suf := if endsAlnum v.data then RE.look true (RE.cls asciiAlnum) else RE.eps
  RE.seq pre (RE.seq body suf)

/-- `find_value_in_text_strict`: span and matched text of the anchored value
occurrence, if any. -/
def findValueInTextStrict (value text : String) : Option (Nat × Nat × String) :=
  if value = "" then none
  else
    match pySearch (anchoredValueRE value) text with
    | some (s, e, _) => some (s, e, sliceStr text s e)
    | none => none

/-- `value_is_substring_token`. -/
def valueIsSubstringToken (needle hay : String) : Bool :=
  if needle = "" ∨ hay = "" then false
  else pyTest (anchoredValueRE needle) hay

/-! ### Value classification and generic equality (source lines 204-245) -/

/-- `looks_valueish(tokens)`. -/
def looksValueish (tokens : List String) : Bool :=
  tokens.any fun t => pyTest timeRE t || pyTest dateRE t || pyTest (RE.cls pyDigit) t

/-- Python `line.split("\t")` (list split keeping empties). -/
def splitOnTab (s : String) : List String :=
  (s.data.foldr
    (fun c acc =>
      match acc with
      | cur :: rest => if c = '\t' then [] :: cur :: rest else (c :: cur) :: rest
      | [] => [[c]])
    [[]]).map List.asString

/-- `re.split(pat, s)`: segments of `s` between the leftmost non-overlapping
matches of `pat`. -/
def pySplit (r : RE) (s : String) : List String :=
  let ms := pyFindIter r s
  let rec go (pos : Nat) : List (Nat × Nat) → List String
    | [] => [sliceStr s pos s.data.length]
    | (st, en) :: rest => sliceStr s pos st :: go en rest
  go 0 (ms.map fun m => (m.1, m.2.1))

/-- `split_fields(line)`: split on tab runs if the line has a tab, else on
runs of two or more whitespace characters; keep non-blank fields, stripped. -/
def splitFields (line : String) : List String :=
  let parts :=
    if line.data.contains '\t' then (pySplit tabsRE line).filter fun p => pyStrip p ≠ ""
    else (pySplit twoSpacesRE line).filter fun p => pyStrip p ≠ ""
  parts.map pyStrip

/-- `classify_value(v)`: ordered first-match-wins cascade. -/
def classifyValue (v : String) : String :=
  if v = "" ∨ pyStrip v = "" then "empty"
  else if pyTest timeRE v then "time"
  else if pyTest dateRE v then "date"
  else if pyTest trkRE v then "truck"
  else if pyTest whRE v then "wh"
  else if pyTest rackRE v then "rack"
  else if pyTest alnumLongRE v then "alnum_long"
  else if pyTest codeShortRE v then "code_short"
  else if (pyMatch digitOnlyRE v).isSome then "small_int"
  else "string"

/-- `equal_strict_or_flexible(ocr_val, bc_val)`. -/
def equalStrictOrFlexible (ocrVal bcVal : String) : Bool :=
  if normCaseSpace ocrVal = normCaseSpace bcVal then true
  else if (pyFullmatch fullTimeRE ocrVal).isSome && (pyFullmatch fullTimeRE bcVal).isSome then
    timesEqualFlexible ocrVal bcVal
  else if pyTest dateRE ocrVal && pyTest dateRE bcVal then
    datesEqualFlexible ocrVal bcVal
  else false

/-! ### difflib.SequenceMatcher (stdlib), as used by `labels_match`

`labels_match` calls `difflib.SequenceMatcher(None, nk, nl).ratio()`.  With
`isjunk = None` the junk set is empty, so the two junk-extension loops of
`find_longest_match` never fire and the `not isbjunk(...)` guards of the
non-junk extension loops are vacuous; the autojunk "popular" filter (active
only when the second string has length >= 200) removes popular characters
from the index `b2j`.  The per-row dict `j2len` is modelled as a total
function that is `0` off its keys, which is exactly `j2len.get(j-1, 0)`. -/

/-- Number of occurrences of `c` in `b`. -/
def countIn (b : List Char) (c : Char) : Nat := (b.filter fun x => x = c).length

/-- autojunk: popular characters are dropped from `b2j` when `len(b) >= 200`. -/
def isPopular (b : List Char) (c : Char) : Bool :=
  b.length ≥ 200 && countIn b c > b.length / 100 + 1

/-- `b2j[c]`: ascending indices of `c` in `b` (empty if popular). -/
def b2j (b : List Char) (c : Char) : List Nat :=
  if isPopular b c then []
  else (List.range b.length).filter fun j => b.get? j = some c

/-- The inner-loop index list: `b2j[a[i]]` restricted to `[blo, bhi)`
(the `continue`/`break` in the source, valid because `b2j[c]` ascends). -/
def jsFor (b : List Char) (blo bhi : Nat) (c : Char) : List Nat :=
  (b2j b c).filter fun j => blo ≤ j && j < bhi

/-- One row of the `find_longest_match` dynamic program: update the best
block using `k = j2len.get(j-1, 0) + 1` for each candidate `j` in order. -/
def rowBest (prev : Nat → Nat) (i : Nat) : List Nat → Nat × Nat × Nat → Nat × Nat × Nat
  | [], best => best
  | j :: js, best =>
      let k := (if j = 0 then 0 else prev (j - 1)) + 1
      rowBest prev i js (if k > best.2.2 then (i + 1 - k, j + 1 - k, k) else best)

/-- The next row's `j2len` as a total function (`0` off the keys). -/
def nextRow (prev : Nat → Nat) (js : List Nat) : Nat → Nat :=
  fun j => if j ∈ js then (if j = 0 then 0 else prev (j - 1)) + 1 else 0

/-- The `for i in range(alo, ahi)` loop of `find_longest_match`. -/
def flmLoop (a b : List Char) (blo bhi : Nat) :
    List Nat → (Nat → Nat) → Nat × Nat × Nat → Nat × Nat × Nat
  | [], _, best => best
  | i :: is, prev, best =>
      let js := jsFor b blo bhi (a.getD i ' ')
      flmLoop a b blo bhi is (nextRow prev js) (rowBest prev i js best)

/-- Equal characters at positions `i` of `a` and `j` of `b` (in range). -/
def chEq (a b : List Char) (i j : Nat) : Bool :=
  match a.get? i, b.get? j with
  | some x, some y => x = y
  | _, _ => false

/-- First (non-junk) extension loop: grow the block backwards. -/
def extendBack (a b : List Char) (alo blo : Nat) : Nat → Nat × Nat × Nat → Nat × Nat × Nat
  | 0, best => best
  | fuel + 1, (bi, bj, bk) =>
      if alo < bi && blo < bj && chEq a b (bi - 1) (bj - 1) then
        extendBack a b alo blo fuel (bi - 1, bj - 1, bk + 1)
      else (bi, bj, bk)

/-- Second (non-junk) extension loop: grow the block forwards. -/
def extendFwd (a b : List Char) (ahi bhi : Nat) : Nat → Nat × Nat × Nat → Nat × Nat × Nat
  | 0, best => best
  | fuel + 1, (bi, bj, bk) =>
      if bi + bk < ahi && bj + bk < bhi && chEq a b (bi + bk) (bj + bk) then
        extendFwd a b ahi bhi fuel (bi, bj, bk + 1)
      else (bi, bj, bk)

/-- `find_longest_match(alo, ahi, blo, bhi)` with an empty junk set.  The
fuel arguments strictly bound the extension loops' iteration counts. -/
def findLongestMatch (a b : List Char) (alo ahi blo bhi : Nat) : Nat × Nat × Nat :=
  let core := flmLoop a b blo bhi (List.range' alo (ahi - alo)) (fun _ => 0) (alo, blo, 0)
  let back := extendBack a b alo blo core.1 core
  extendFwd a b ahi bhi ahi back

/-- Total size of all matching blocks of `get_matching_blocks` on the
interval.  The queue-driven loop of the stdlib visits exactly this recursion
tree (it pushes the two sub-intervals whenever the longest block is
non-empty), and neither the final sorting nor the adjacent-block merging
changes the total size, so the sum can be computed directly.  `fuel`
dominates the recursion depth since the total interval size shrinks at each
level. -/
def matchesSum (a b : List Char) : Nat → Nat → Nat → Nat → Nat → Nat
  | 0, _, _, _, _ => 0
  | fuel + 1, alo, ahi, blo, bhi =>
      let t := findLongestMatch a b alo ahi blo bhi
      if t.2.2 = 0 then 0
      else
        t.2.2 +
          (if alo < t.1 ∧ blo < t.2.1 then matchesSum a b fuel alo t.1 blo t.2.1 else 0) +
          (if t.1 + t.2.2 < ahi ∧ t.2.1 + t.2.2 < bhi then
            matchesSum a b fuel (t.1 + t.2.2) ahi (t.2.1 + t.2.2) bhi
          else 0)

/-- `SequenceMatcher.ratio()` = `2 * matches / (len(a) + len(b))`, and `1.0`
when both strings are empty (`_calculate_ratio`). -/
def smRatio (a b : List Char) : ℚ :=
  if a.length + b.length = 0 then 1
  else 2 * (matchesSum a b (a.length + b.length + 1) 0 a.length 0 b.length : ℚ) /
    (a.length + b.length)

/-- `labels_match(ocr_key, lbl)`: 0.0 on an empty normalized side, 1.0 on
exact normalized equality, else the SequenceMatcher ratio. -/
def labelsMatch (ocrKey lbl : String) : ℚ :=
  let nk := normLabel ocrKey
  let nl := normLabel lbl
  if nk = "" ∨ nl = "" then 0
  else if nk = nl then 1
  else smRatio nk.data nl.data

example : matchesSum "abcd".data "bcde".data 9 0 4 0 4 = 3 := by decide
example : smRatio "abcd".data "bcde".data = 3 / 4 := by
  have h : matchesSum "abcd".data "bcde".data
      ("abcd".data.length + "bcde".data.length + 1) 0 "abcd".data.length 0
      "bcde".data.length = 3 := by decide
  have hl : "abcd".data.length = 4 := by decide
  have hl2 : "bcde".data.length = 4 := by decide
  rw [smRatio, h, hl, hl2]
  norm_num
example : labelsMatch "Dock Door" "dock-door" = 1 := by decide
/-! ### Candidate pairs, cost model and assignment solver (source lines 446-501) -/

/-- A `{label, value}` candidate pair. -/
structure BP where
  label : String
  value : String
deriving DecidableEq, Repr

/-- `pair_cost(ocr_key, ocr_val, p)`.  Python float arithmetic is modelled
exactly over `ℚ`; every constant in the formula is a short dyadic/decimal
literal, and only order/threshold comparisons of the results matter to the
engine, so the float rounding of the source cannot change any claim here. -/
def pairCost (ocrKey ocrVal : String) (p : BP) : ℚ :=
  let labSim := labelsMatch ocrKey p.label
  let labCost : ℚ := 1 - labSim
  let vCost : ℚ :=
    if equalStrictOrFlexible ocrVal p.value then 0
    else if valueIsSubstringToken ocrVal p.value then 0.75
    else 1
  let oCls := classifyValue ocrVal
  let pCls := classifyValue p.value
  let sameTime := pyTest fullTimeRE ocrVal && pyTest fullTimeRE p.value
  let sameDate := pyTest dateRE ocrVal && pyTest dateRE p.value
  let tPen : ℚ := if oCls = pCls ∨ sameTime = true ∨ sameDate = true then 0 else 0.25
  0.6 * labCost + 0.35 * vCost + 0.05 * tPen

/-- `build_cost_matrix`: the source fills a 1.5-initialised matrix cell by
cell with `pair_cost`, covering every cell, so the result is exactly this
map (the `"" if v is None else str(v)` coercion happens on load and is a
no-op on the string-valued expected items modelled here). -/
def buildCostMatrix (items : List (String × String)) (pairs : List BP) : List (List ℚ) :=
  items.map fun kv => pairs.map fun p => pairCost kv.1 kv.2 p

/-- Cost-matrix cell access (`C[i][j]`; indices produced by the solvers are
always in range, see the C1 theorem). -/
def costAt (C : List (List ℚ)) (i j : Nat) : ℚ := (C.getD i []).getD j 0

/-- Number of columns, `len(C[0]) if C else 0`. -/
def colsOf (C : List (List ℚ)) : Nat :=
  match C with
  | [] => 0
  | r :: _ => r.length

/-- `if cost < best[2]: best = (i, j, cost)` with `None` playing the role
of the initial `inf`. -/
def betterOf (best : Option (Nat × Nat × ℚ)) (i j : Nat) (c : ℚ) :
    Option (Nat × Nat × ℚ) :=
  match best with
  | none => some (i, j, c)
  | some (bi, bj, bc) => if c < bc then some (i, j, c) else some (bi, bj, bc)

/-- Inner scan of `greedy_assign`: walk the unused cells of row `i` in
ascending `j`, keeping the strictly smallest cost seen so far. -/
def scanRow (C : List (List ℚ)) (usedJ : List Nat) (i : Nat) :
    List Nat → Option (Nat × Nat × ℚ) → Option (Nat × Nat × ℚ)
  | [], best => best
  | j :: js, best =>
      if j ∈ usedJ then scanRow C usedJ i js best
      else scanRow C usedJ i js (betterOf best i j (costAt C i j))

/-- Outer scan of `greedy_assign` over the unused rows. -/
def scanAll (C : List (List ℚ)) (usedI usedJ : List Nat) :
    List Nat → Option (Nat × Nat × ℚ) → Option (Nat × Nat × ℚ)
  | [], best => best
  | i :: is, best =>
      if i ∈ usedI then scanAll C usedI usedJ is best
      else scanAll C usedI usedJ is (scanRow C usedJ i (List.range (colsOf C)) best)

def greedyScan (C : List (List ℚ)) (usedI usedJ : List Nat) : Option (Nat × Nat × ℚ) :=
  scanAll C usedI usedJ (List.range C.length) none

/-- `greedy_assign(C, thresh)` as the list of selected `(i, j)` pairs in
acceptance order (the source appends to `row_idx`/`col_idx` in lockstep;
those lists are the two projections).  Each accepted iteration consumes a
distinct row, so `len(C)` iterations of fuel replicate the unbounded
`while True` loop exactly. -/
def greedyAssignGo (C : List (List ℚ)) (thresh : ℚ) :
    Nat → List Nat → List Nat → List (Nat × Nat)
  | 0, _, _ => []
  | fuel + 1, usedI, usedJ =>
      match greedyScan C usedI usedJ with
      | none => []
      | some (i, j, c) =>
          if c > thresh then []
          else (i, j) :: greedyAssignGo C thresh fuel (i :: usedI) (j :: usedJ)

def greedyAssign (C : List (List ℚ)) (thresh : ℚ) : List (Nat × Nat) :=
  greedyAssignGo C thresh C.length [] []

/-- The SciPy path of `ocr_global_assignment` (lines 533-538): given the
solver's `row_ind`/`col_ind` arrays, keep exactly the pairs whose cost is
within the acceptance threshold. -/
def hungarianFilter (C : List (List ℚ)) (thresh : ℚ) (ri cj : List Nat) :
    List (Nat × Nat) :=
  (ri.zip cj).filter fun ij => costAt C ij.1 ij.2 ≤ thresh

example : greedyAssign [[0, 1], [1, 0]] (1 : ℚ) = [(0, 0), (1, 1)] := by decide
example : greedyAssign [] (1 : ℚ) = [] := by decide
example : hungarianFilter [[0, 1], [1, 0]] (0 : ℚ) [0, 1] [1, 0] = [] := by decide
example : hungarianFilter [[0, 1], [1, 0]] (0 : ℚ) [0, 1] [0, 1] = [(0, 0), (1, 1)] := by decide

/-! ### Pair extraction (source lines 279-351) -/

/-- `_is_colon_cell(s)`. -/
def isColonCell (s : String) : Bool := (pyMatch cellColonRE s).isSome

/-- The inline `label: value` hits of a line (step 1 of the extractor);
pairs with an empty stripped value are not appended. -/
def inlinePairsOf (ln : String) : List BP :=
  (pyFindIter inlinePairRE ln).filterMap fun m =>
    let lbl := pyStrip ((capStr ln m.2.2 1).getD "")
    let val := pyStrip ((capStr ln m.2.2 2).getD "")
    if val = "" then none else some ⟨lbl, val⟩

/-- Per-cell split when every field of an even, value-ish line is a
colon-cell (line 332). -/
def colonCellPairs (toks : List String) : List BP :=
  toks.filterMap fun cell =>
    match pyMatch colonCellSplitRE cell with
    | some (_, cs) =>
        some ⟨pyStrip ((capStr cell cs 1).getD ""), pyStrip ((capStr cell cs 2).getD "")⟩
    | none => none

/-- Positional pairing `(0,1), (2,3), …` (line 338). -/
def evenPairs : List String → List BP
  | a :: b :: rest => ⟨a, b⟩ :: evenPairs rest
  | _ => []

/-- `j = i + 1; while j < len(lines) and not lines[j].strip(): j += 1`. -/
def nextNonBlank (lines : List String) : Nat → Nat → Nat
  | 0, j => j
  | fuel + 1, j =>
      if j < lines.length ∧ pyStrip (lines.getD j "") = "" then
        nextNonBlank lines fuel (j + 1)
      else j

/-- The `while i < len(lines)` loop of `parse_pairs_for_context`.  The index
advances by at least one per iteration, so `lines.length + 1` fuel
replicates the loop exactly. -/
def ppcGo (lines : List String) : Nat → Nat → List BP
  | 0, _ => []
  | fuel + 1, i =>
      if i < lines.length then
        let ln := pyStrip (lines.getD i "")
        if ln = "" ∨ (pyMatch sepLineRE ln).isSome then ppcGo lines fuel (i + 1)
        else
          let inl := inlinePairsOf ln
          let toks := splitFields ln
          let n := toks.length
          if n = 2 then
            if isColonCell (toks.getD 0 "") ∧ isColonCell (toks.getD 1 "") then
              inl ++ ppcGo lines fuel (i + 1)
            else inl ++ ⟨toks.getD 0 "", toks.getD 1 ""⟩ :: ppcGo lines fuel (i + 1)
          else if 2 ≤ n then
            let j := nextNonBlank lines lines.length (i + 1)
            let nxt := splitFields (lines.getD j "")
            if j < lines.length ∧ nxt.length = n ∧ looksValueish nxt = true ∧
                looksValueish toks = false then
              inl ++ (toks.zip nxt).map (fun ab => BP.mk ab.1 ab.2) ++ ppcGo lines fuel (j + 1)
            else if n % 2 = 0 ∧ looksValueish toks = true then
              if toks.all isColonCell then inl ++ colonCellPairs toks ++ ppcGo lines fuel (i + 1)
              else inl ++ evenPairs toks ++ ppcGo lines fuel (i + 1)
            else inl ++ ppcGo lines fuel (i + 1)
          else inl ++ ppcGo lines fuel (i + 1)
      else []

/-- First-seen dedup by exact `(label, value)` (end of the extractor). -/
def dedupKeepFirst {α : Type} [DecidableEq α] (seen : List α) : List α → List α
  | [] => []
  | p :: rest =>
      if p ∈ seen then dedupKeepFirst seen rest else p :: dedupKeepFirst (p :: seen) rest

/-- `parse_pairs_for_context(text)`. -/
def parsePairsForContext (text : String) : List BP :=
  let lines := getLines text
  dedupKeepFirst [] (ppcGo lines (lines.length + 1) 0)

/-! ### Context label inference (source lines 248-276) -/

/-- The first loop of `infer_label_on_line`: the last `label:` match wholly
before the value's start (the loop breaks at the first match extending past
`mstart`). -/
def lastLabelBefore (line : String) (mstart : Nat) : Option String :=
  match ((pyFindIter labelColonRE line).takeWhile fun m => m.2.1 ≤ mstart).getLast? with
  | some m => some (pyStrip ((capStr line m.2.2 1).getD ""))
  | none => none

/-- The tab/space segment scans of `infer_label_on_line`: find the segment
containing `mstart` and return the stripped previous segment when non-blank.
Both "loop breaks without returning" and "loop falls through" continue with
the next strategy in the source, so a single `none` models both. -/
def segScan (delta mstart : Nat) : Option String → Nat → List String → Option String
  | _, _, [] => none
  | prev, acc, t :: rest =>
      let segEnd := acc + t.length
      if acc ≤ mstart ∧ mstart ≤ segEnd then
        match prev with
        | some pt => if pyStrip pt ≠ "" then some (pyStrip pt) else none
        | none => none
      else segScan delta mstart (some t) (segEnd + delta) rest

/-- `infer_label_on_line(line, match_span)`. -/
def inferLabelOnLine (line : String) (mspan : Nat × Nat) : Option String :=
  let mstart := mspan.1
  match lastLabelBefore line mstart with
  | some lbl => some lbl
  | none =>
      match segScan 1 mstart none 0 (splitOnTab line) with
      | some lbl => some lbl
      | none => segScan 2 mstart none 0 (pySplit twoSpacesRE line)

/-! ### OCR-driven global assignment (source lines 504-597) -/

structure Row where
  key : String
  ocr : String
  barcode_label : String
  barcode_value : String
  status : String
  context_label : String
deriving DecidableEq, Repr

structure Summary where
  matched : Nat
  mismatched : Nat
  missing : Nat
deriving DecidableEq, Repr

/-- `assigned_map` lookup (`i in assigned_map` / `assigned_map[i]`); the
solver emits distinct row indices, so association-list lookup is the dict. -/
def lookupA (amap : List (Nat × Nat)) (i : Nat) : Option Nat :=
  (amap.find? fun ij => ij.1 = i).map fun ij => ij.2

/-- The per-field body of the reporting loop.  `inferred or key` /
`inferred or ""` are `Option.getD` because `infer_label_on_line` never
returns an empty (falsy) string: every path strips a string it has already
checked to be non-blank or whose head is a letter. -/
def ocrRow (barcodeText : String) (pairsCtx : List BP) (amap : List (Nat × Nat))
    (i : Nat) (key ocrValStr : String) : Row :=
  match lookupA amap i with
  | some j =>
      let p := pairsCtx.getD j ⟨"", ""⟩
      if equalStrictOrFlexible ocrValStr p.value then
        ⟨key, ocrValStr, p.label, p.value, "MATCH", p.label⟩
      else if valueIsSubstringToken ocrValStr p.value then
        ⟨key, ocrValStr, p.label, p.value, "MISMATCH", p.label⟩
      else
        ⟨key, ocrValStr, p.label, p.value, "MISMATCH", p.label⟩
  | none =>
      match findValueInTextStrict ocrValStr barcodeText with
      | some (s, e, matched) =>
          let ls := findLineStart barcodeText.data s
          let le := findLineEnd barcodeText.data s
          let line := sliceStr barcodeText ls le
          let inferred := inferLabelOnLine line (s - ls, e - ls)
          ⟨key, ocrValStr, inferred.getD key, matched, "MISMATCH", inferred.getD ""⟩
      | none => ⟨key, ocrValStr, "", "", "MISSING", ""⟩

/-- Summary counter increment; each branch of the source bumps the counter
named by the status literal it just wrote into the row. -/
def bump (s : Summary) (st : String) : Summary :=
  if st = "MATCH" then ⟨s.matched + 1, s.mismatched, s.missing⟩
  else if st = "MISMATCH" then ⟨s.matched, s.mismatched + 1, s.missing⟩
  else ⟨s.matched, s.mismatched, s.missing + 1⟩

/-- The `for i, (key, ocr_val_str) in enumerate(expected_items)` loop:
one row appended and one counter bumped per expected item. -/
def ocrProcess (barcodeText : String) (pairsCtx : List BP) (amap : List (Nat × Nat)) :
    List (Nat × String × String) → List Row × Summary
  | [] => ([], ⟨0, 0, 0⟩)
  | (i, k, v) :: rest =>
      let r := ocrRow barcodeText pairsCtx amap i k v
      let rs := ocrProcess barcodeText pairsCtx amap rest
      (r :: rs.1, bump rs.2 r.status)

/-- `enumerate` with a start index. -/
def enumFrom {α : Type} : Nat → List α → List (Nat × α)
  | _, [] => []
  | n, x :: xs => (n, x) :: enumFrom (n + 1) xs

/-- `ocr_global_assignment(expected, barcode_text, pairs_ctx, assign_thresh)`
on the greedy-fallback path (`HAS_SCIPY = False`); the SciPy path differs
only in which threshold-respecting assignment feeds the identical reporting
loop (see the C1 theorem for both solvers). -/
def ocrGlobalAssignment (expected : List (String × String)) (barcodeText : String)
    (pairsCtx : List BP) (assignThresh : ℚ) : List Row × Summary :=
  let C := buildCostMatrix expected pairsCtx
  let sel := greedyAssign C assignThresh
  ocrProcess barcodeText pairsCtx sel (enumFrom 0 expected)

/-! ### Library diff (source lines 600-618 and 701-710) -/

/-- The consumed-value collection of `main`: barcode values of rows that
matched or mismatched with a non-empty barcode label. -/
def consumedValues (rows : List Row) : List String :=
  rows.filterMap fun r =>
    if (r.status = "MATCH" ∨ r.status = "MISMATCH") ∧ r.barcode_label ≠ "" then
      if r.barcode_value ≠ "" then some r.barcode_value else none
    else none

structure Missed where
  cls : String
  labels : List String
  value : String
  count : Nat
deriving DecidableEq, Repr

def equalsAnyConsumed (consumed : List String) (val : String) : Bool :=
  consumed.any fun mv => equalStrictOrFlexible val mv

/-- `e["label"] or "(unlabeled)"`. -/
def labelOrUnlabeled (e : BP) : String := if e.label = "" then "(unlabeled)" else e.label

/-- The pre-sort "missed" list, iterating the multimap in insertion order.
Python's `list({...})` materialises the label set in an unspecified hash
order; it is modelled as first-seen order, which carries the same set. -/
def missedPre (consumed : List String) : List ((String × String) × List BP) → List Missed
  | [] => []
  | e :: rest =>
      let kept := e.2.filter fun x => !equalsAnyConsumed consumed x.value
      if kept.isEmpty then missedPre consumed rest
      else
        ⟨e.1.2, dedupKeepFirst [] (kept.map labelOrUnlabeled),
          (kept.headD ⟨"", ""⟩).value, kept.length⟩ :: missedPre consumed rest

/-- The fixed class priority, `order.get(cls, 99)`. -/
def orderIdx (c : String) : Nat :=
  if c = "alnum_long" then 0
  else if c = "truck" then 1
  else if c = "wh" then 2
  else if c = "rack" then 3
  else if c = "date" then 4
  else if c = "time" then 5
  else if c = "code_short" then 6
  else if c = "small_int" then 7
  else if c = "string" then 8
  else if c = "empty" then 9
  else 99

/-- The sort key order `(order.get(class, 99), value)`, lexicographically. -/
def missedLE (x y : Missed) : Prop :=
  orderIdx x.cls < orderIdx y.cls ∨ (orderIdx x.cls = orderIdx y.cls ∧ x.value ≤ y.value)

instance : DecidableRel missedLE := fun x y => by
  unfold missedLE; infer_instance

/-- `library_remaining_to_list(lib_map, consumed_values)`.  Python
`list.sort` is stable; `insertionSort` is stable for the same total
preorder, so the two sorts agree elementwise. -/
def libraryRemainingToList (libMap : List ((String × String) × List BP))
    (consumed : List String) : List Missed :=
  List.insertionSort missedLE (missedPre consumed libMap)

example : parsePairsForContext "" = [] := by decide
example : parsePairsForContext "Origin: Plant A\nDest: WH-07" =
    [⟨"Origin", "Plant A"⟩, ⟨"Dest", "WH-07"⟩] := by decide

example : normTimeTupleFull "2:30 PM" = some (14, 30, 0, some "PM") := by decide

/-! ### Spec-side comparison definition for claim C4 -/

/-- Modelled from the spec's words (section 4.3): two strings are
time-equivalent iff both fully parse under the strict time grammar, their
24-hour hour and minute components agree (seconds ignored), and the
meridian condition holds — if either side specifies AM/PM then both must
specify one and they must be equal.  Stated over the source's parser to be
compared with the source's `times_equal_flexible`. -/
def timesEqualSpec (a b : String) : Bool :=
  match normTimeTupleFull a, normTimeTupleFull b with
  | some (ah, am, _, amer), some (bh, bm, _, bmer) =>
      decide (ah = bh) && decide (am = bm) &&
        (if amer.isSome || bmer.isSome then amer.isSome && bmer.isSome && amer == bmer
         else true)
  | _, _ => false

/-! ## Claim theorems -/

/-! ### Helper lemmas about the reporting loop -/

lemma ocrRow_key (t : String) (p : List BP) (a : List (Nat × Nat)) (i : Nat)
    (k v : String) : (ocrRow t p a i k v).key = k := by
  unfold ocrRow
  rcases hA : lookupA a i with _ | j
  · rcases hf : findValueInTextStrict v t with _ | ⟨s, e, m⟩ <;> simp
  · simp only []
    split <;> simp

lemma ocrRow_status_cases (t : String) (p : List BP) (a : List (Nat × Nat)) (i : Nat)
    (k v : String) :
    (ocrRow t p a i k v).status = "MATCH" ∨ (ocrRow t p a i k v).status = "MISMATCH" ∨
      (ocrRow t p a i k v).status = "MISSING" := by
  unfold ocrRow
  rcases hA : lookupA a i with _ | j
  · rcases hf : findValueInTextStrict v t with _ | ⟨s, e, m⟩ <;> simp
  · simp only []
    split <;> simp

lemma ocrRow_missing_empty (t : String) (p : List BP) (a : List (Nat × Nat)) (i : Nat)
    (k v : String) (h : (ocrRow t p a i k v).status = "MISSING") :
    (ocrRow t p a i k v).barcode_label = "" ∧ (ocrRow t p a i k v).barcode_value = "" ∧
      (ocrRow t p a i k v).context_label = "" := by
  revert h
  unfold ocrRow
  rcases hA : lookupA a i with _ | j
  · rcases hf : findValueInTextStrict v t with _ | ⟨s, e, m⟩ <;> intro h
    · simp
    · simp at h
  · intro h
    simp only [] at h
    split at h <;> simp_all

lemma ocrRow_found_status (t : String) (p : List BP) (a : List (Nat × Nat)) (i : Nat)
    (k v : String) (h : findValueInTextStrict v t ≠ none) :
    (ocrRow t p a i k v).status ≠ "MISSING" := by
  unfold ocrRow
  rcases ha : lookupA a i with _ | j
  · rcases hf : findValueInTextStrict v t with _ | ⟨s, e, m⟩
    · exact absurd hf h
    · simp
  · simp only []
    split <;> simp

lemma bump_total (s : Summary) (st : String) :
    (bump s st).matched + (bump s st).mismatched + (bump s st).missing =
      s.matched + s.mismatched + s.missing + 1 := by
  unfold bump
  split <;> (try split) <;> simp <;> omega

lemma enumFrom_length {α : Type} (n : Nat) (l : List α) :
    (enumFrom n l).length = l.length := by
  induction l generalizing n with
  | nil => rfl
  | cons x xs ih => simp [enumFrom, ih]

lemma enumFrom_map_snd {α : Type} (n : Nat) (l : List α) :
    (enumFrom n l).map Prod.snd = l := by
  induction l generalizing n with
  | nil => rfl
  | cons x xs ih => simp [enumFrom, ih]

lemma enumFrom_getD (n : Nat) (l : List (String × String)) (idx : Nat)
    (h : idx < l.length) :
    (enumFrom n l).getD idx (0, "", "") = (n + idx, l.getD idx ("", "")) := by
  induction l generalizing n idx with
  | nil => simp at h
  | cons x xs ih =>
      cases idx with
      | zero => simp [enumFrom]
      | succ m =>
          simp only [enumFrom, List.getD_cons_succ]
          rw [ih (n + 1) m (by simpa using h)]
          ring_nf

/-! ### Lemmas for the empty-barcode-text behaviour -/

lemma escElem_nil (c : Char) (cs : Caps) (k : Nat → Caps → Option MRes) :
    reMatch [] (escElem c) 0 cs k = none := by
  unfold escElem
  split <;> simp [reMatch, runLen, repTryGreedy]

lemma reMatchTop_anchored_nil (v : String) (hv : v ≠ "") :
    reMatchTop [] (anchoredValueRE v) 0 = none := by
  obtain ⟨data⟩ := v
  cases data with
  | nil => exact absurd rfl hv
  | cons c cs =>
      unfold reMatchTop anchoredValueRE
      simp only [List.head?, List.map, reSeqL, List.foldr]
      by_cases hc : asciiAlnum c = true <;>
        simp [hc, reMatch, charBefore, escElem_nil]

lemma findValueInTextStrict_empty (v : String) : findValueInTextStrict v "" = none := by
  unfold findValueInTextStrict
  by_cases hv : v = ""
  · simp [hv]
  · simp [hv, pySearch, reSearchFrom, reMatchTop_anchored_nil v hv]

lemma scanAll_none_of_no_cols (C : List (List ℚ)) (uI uJ : List Nat)
    (hc : colsOf C = 0) (is : List Nat) :
    scanAll C uI uJ is none = none := by
  induction is with
  | nil => rfl
  | cons i is ih =>
      unfold scanAll
      rw [hc]
      split <;> simpa [scanRow] using ih

lemma greedyAssign_no_cols (C : List (List ℚ)) (thresh : ℚ) (hc : colsOf C = 0) :
    greedyAssign C thresh = [] := by
  unfold greedyAssign
  cases hM : C.length with
  | zero => rfl
  | succ m =>
      unfold greedyAssignGo greedyScan
      rw [scanAll_none_of_no_cols C [] [] hc]

lemma buildCostMatrix_no_pairs (items : List (String × String)) :
    colsOf (buildCostMatrix items []) = 0 := by
  cases items <;> simp [buildCostMatrix, colsOf]

lemma lookupA_nil (i : Nat) : lookupA [] i = none := rfl

/-- With empty barcode text and no candidate pairs, every row is MISSING. -/
lemma ocrProcess_all_missing (items : List (Nat × String × String)) :
    ocrProcess "" [] [] items =
      (items.map fun it => ⟨it.2.1, it.2.2, "", "", "MISSING", ""⟩,
        ⟨0, 0, items.length⟩) := by
  induction items with
  | nil => rfl
  | cons x rest ih =>
      obtain ⟨i, k, v⟩ := x
      have hrow : ocrRow "" [] [] i k v = ⟨k, v, "", "", "MISSING", ""⟩ := by
        unfold ocrRow
        rw [lookupA_nil, findValueInTextStrict_empty]
      simp [ocrProcess, ih, hrow, bump]

lemma ocrProcess_invariants (t : String) (pairs : List BP) (amap : List (Nat × Nat)) :
    ∀ items : List (Nat × String × String),
      (ocrProcess t pairs amap items).1.length = items.length ∧
      (ocrProcess t pairs amap items).1.map Row.key = items.map (fun it => it.2.1) ∧
      (∀ r ∈ (ocrProcess t pairs amap items).1,
        r.status = "MATCH" ∨ r.status = "MISMATCH" ∨ r.status = "MISSING") ∧
      (ocrProcess t pairs amap items).2.matched =
        ((ocrProcess t pairs amap items).1.filter fun r => r.status == "MATCH").length ∧
      (ocrProcess t pairs amap items).2.mismatched =
        ((ocrProcess t pairs amap items).1.filter fun r => r.status == "MISMATCH").length ∧
      (ocrProcess t pairs amap items).2.missing =
        ((ocrProcess t pairs amap items).1.filter fun r => r.status == "MISSING").length ∧
      (∀ r ∈ (ocrProcess t pairs amap items).1, r.status = "MISSING" →
        r.barcode_label = "" ∧ r.barcode_value = "" ∧ r.context_label = "") := by
  intro items
  induction items with
  | nil => simp [ocrProcess]
  | cons x rest ih =>
      obtain ⟨i, k, v⟩ := x
      obtain ⟨ihLen, ihKeys, ihStat, ihMa, ihMi, ihMs, ihEmpty⟩ := ih
      have hst := ocrRow_status_cases t pairs amap i k v
      refine ⟨?_, ?_, ?_, ?_, ?_, ?_, ?_⟩
      · simp [ocrProcess, ihLen]
      · simp [ocrProcess, ihKeys, ocrRow_key]
      · intro r hr
        rcases (by simpa [ocrProcess] using hr : _ ∨ _) with h | h
        · subst h; exact hst
        · exact ihStat r h
      · rcases hst with h | h | h <;>
          simp [ocrProcess, bump, h, ihMa, List.filter]
      · rcases hst with h | h | h <;>
          simp [ocrProcess, bump, h, ihMi, List.filter]
      · rcases hst with h | h | h <;>
          simp [ocrProcess, bump, h, ihMs, List.filter]
      · intro r hr hmiss
        rcases (by simpa [ocrProcess] using hr : _ ∨ _) with h | h
        · subst h; exact ocrRow_missing_empty t pairs amap i k v hmiss
        · exact ihEmpty r h hmiss

lemma ocrProcess_total (t : String) (pairs : List BP) (amap : List (Nat × Nat)) :
    ∀ items : List (Nat × String × String),
      (ocrProcess t pairs amap items).2.matched +
        (ocrProcess t pairs amap items).2.mismatched +
        (ocrProcess t pairs amap items).2.missing = items.length := by
  intro items
  induction items with
  | nil => rfl
  | cons x rest ih =>
      obtain ⟨i, k, v⟩ := x
      have hb := bump_total (ocrProcess t pairs amap rest).2
        (ocrRow t pairs amap i k v).status
      simp only [ocrProcess, List.length_cons]
      omega

/-- C2: an expected field whose non-empty value occurs in the barcode text
as a token-anchored match (which is exactly what
`find_value_in_text_strict` decides) never gets status MISSING — stated for
the reporting loop under an arbitrary assignment (covering both solver
paths) and for the greedy-path entry point `ocr_global_assignment`. -/
theorem claim2_anchored_value_not_missing :
    (∀ (barcodeText : String) (pairsCtx : List BP) (amap : List (Nat × Nat))
        (items : List (Nat × String × String)) (idx : Nat),
      idx < items.length →
      (items.getD idx (0, "", "")).2.2 ≠ "" →
      findValueInTextStrict (items.getD idx (0, "", "")).2.2 barcodeText ≠ none →
      ((ocrProcess barcodeText pairsCtx amap items).1.getD idx
          ⟨"", "", "", "", "", ""⟩).status ≠ "MISSING") ∧
    (∀ (expected : List (String × String)) (barcodeText : String)
        (pairsCtx : List BP) (thresh : ℚ) (idx : Nat),
      idx < expected.length →
      (expected.getD idx ("", "")).2 ≠ "" →
      findValueInTextStrict (expected.getD idx ("", "")).2 barcodeText ≠ none →
      ((ocrGlobalAssignment expected barcodeText pairsCtx thresh).1.getD idx
          ⟨"", "", "", "", "", ""⟩).status ≠ "MISSING") := by
  have main : ∀ (barcodeText : String) (pairsCtx : List BP) (amap : List (Nat × Nat))
      (items : List (Nat × String × String)) (idx : Nat),
      idx < items.length →
      (items.getD idx (0, "", "")).2.2 ≠ "" →
      findValueInTextStrict (items.getD idx (0, "", "")).2.2 barcodeText ≠ none →
      ((ocrProcess barcodeText pairsCtx amap items).1.getD idx
          ⟨"", "", "", "", "", ""⟩).status ≠ "MISSING" := by
    intro barcodeText pairsCtx amap items
    induction items with
    | nil => intro idx h; simp at h
    | cons x rest ih =>
        intro idx hlt hne hfind
        obtain ⟨i, k, v⟩ := x
        cases idx with
        | zero =>
            simpa [ocrProcess] using
              ocrRow_found_status barcodeText pairsCtx amap i k v (by simpa using hfind)
        | succ m =>
            have hm : m < rest.length := by simpa using hlt
            simpa [ocrProcess] using
              ih m hm (by simpa using hne) (by simpa using hfind)
  refine ⟨main, ?_⟩
  intro expected barcodeText pairsCtx thresh idx hlt hne hfind
  have hget := enumFrom_getD 0 expected idx hlt
  have hlen : idx < (enumFrom 0 expected).length := by
    rw [enumFrom_length]; exact hlt
  apply main barcodeText pairsCtx _ (enumFrom 0 expected) idx hlen
  · rw [hget]; exact hne
  · rw [hget]; exact hfind

/-- C2 witness: the theorem applied at a concrete run ("AB" occurs anchored
in the barcode text, the field is unassigned, and the produced row is a
MISMATCH, not MISSING). -/
theorem claim2_anchored_value_not_missing_witness :
    ((ocrProcess "x AB y" [] [] [(0, "K", "AB")]).1.getD 0
        ⟨"", "", "", "", "", ""⟩).status ≠ "MISSING" :=
  claim2_anchored_value_not_missing.1 "x AB y" [] [] [(0, "K", "AB")] 0
    (by decide) (by decide) (by decide)

/-- C8: with empty barcode text the extractor yields no pairs; for every
expected mapping each field resolves to MISSING with summary
`(0, 0, len(expected))`; and the concrete `{"Origin": "Plant A"}` scenario
produces exactly one MISSING row at the default threshold 0.75.  (All the
model's functions are total, matching the "no exception" part.) -/
theorem claim8_empty_text :
    parsePairsForContext "" = [] ∧
    (∀ (expected : List (String × String)) (thresh : ℚ),
      ((ocrGlobalAssignment expected "" [] thresh).1.all
        fun r => r.status == "MISSING") = true ∧
      (ocrGlobalAssignment expected "" [] thresh).2 = ⟨0, 0, expected.length⟩) ∧
    ocrGlobalAssignment [("Origin", "Plant A")] "" [] (3 / 4 : ℚ) =
      ([⟨"Origin", "Plant A", "", "", "MISSING", ""⟩], ⟨0, 0, 1⟩) := by
  refine ⟨by decide, ?_, ?_⟩
  · intro expected thresh
    have hsel : greedyAssign (buildCostMatrix expected []) thresh = [] :=
      greedyAssign_no_cols _ _ (buildCostMatrix_no_pairs expected)
    simp only [ocrGlobalAssignment]
    rw [hsel, ocrProcess_all_missing]
    constructor
    · simp
      intro x i k v hmem h
      rw [← h]
    · simp [enumFrom_length]
  · have hsel : greedyAssign (buildCostMatrix [("Origin", "Plant A")] []) (3 / 4 : ℚ) = [] :=
      greedyAssign_no_cols _ _ (buildCostMatrix_no_pairs _)
    simp only [ocrGlobalAssignment]
    rw [hsel, ocrProcess_all_missing]
    rfl

/-- C8 has no hypotheses to witness, but the all-MISSING clause applied to a
two-field mapping documents the evaluation concretely. -/
theorem claim8_empty_text_witness :
    ((ocrGlobalAssignment [("A", "1"), ("B", "2")] "" [] (3 / 4 : ℚ)).1.all
      fun r => r.status == "MISSING") = true :=
  (claim8_empty_text.2.1 [("A", "1"), ("B", "2")] (3 / 4 : ℚ)).1

/-- C10: the reporting loop produces exactly one row per expected item, in
order, with status in {MATCH, MISMATCH, MISSING}; each summary counter
counts the rows carrying its status, the three counters sum to the number
of items, and MISSING rows carry empty barcode label/value and context
label.  The key order statement is instantiated for the
`ocr_global_assignment` entry point. -/
theorem claim10_report_invariants :
    (∀ (barcodeText : String) (pairsCtx : List BP) (amap : List (Nat × Nat))
        (items : List (Nat × String × String)),
      (ocrProcess barcodeText pairsCtx amap items).1.length = items.length ∧
      (ocrProcess barcodeText pairsCtx amap items).1.map Row.key =
        items.map (fun it => it.2.1) ∧
      (∀ r ∈ (ocrProcess barcodeText pairsCtx amap items).1,
        r.status = "MATCH" ∨ r.status = "MISMATCH" ∨ r.status = "MISSING") ∧
      (ocrProcess barcodeText pairsCtx amap items).2.matched =
        ((ocrProcess barcodeText pairsCtx amap items).1.filter
          fun r => r.status == "MATCH").length ∧
      (ocrProcess barcodeText pairsCtx amap items).2.mismatched =
        ((ocrProcess barcodeText pairsCtx amap items).1.filter
          fun r => r.status == "MISMATCH").length ∧
      (ocrProcess barcodeText pairsCtx amap items).2.missing =
        ((ocrProcess barcodeText pairsCtx amap items).1.filter
          fun r => r.status == "MISSING").length ∧
      (ocrProcess barcodeText pairsCtx amap items).2.matched +
        (ocrProcess barcodeText pairsCtx amap items).2.mismatched +
        (ocrProcess barcodeText pairsCtx amap items).2.missing = items.length ∧
      (∀ r ∈ (ocrProcess barcodeText pairsCtx amap items).1, r.status = "MISSING" →
        r.barcode_label = "" ∧ r.barcode_value = "" ∧ r.context_label = "")) ∧
    (∀ (expected : List (String × String)) (barcodeText : String)
        (pairsCtx : List BP) (thresh : ℚ),
      (ocrGlobalAssignment expected barcodeText pairsCtx thresh).1.map Row.key =
        expected.map Prod.fst) := by
  constructor
  · intro barcodeText pairsCtx amap items
    obtain ⟨h1, h2, h3, h4, h5, h6, h7⟩ := ocrProcess_invariants barcodeText pairsCtx amap items
    exact ⟨h1, h2, h3, h4, h5, h6, ocrProcess_total barcodeText pairsCtx amap items, h7⟩
  · intro expected barcodeText pairsCtx thresh
    simp only [ocrGlobalAssignment]
    have h := (ocrProcess_invariants barcodeText pairsCtx
      (greedyAssign (buildCostMatrix expected pairsCtx) thresh) (enumFrom 0 expected)).2.1
    rw [h]
    have : (enumFrom 0 expected).map (fun it => it.2.1) =
        ((enumFrom 0 expected).map Prod.snd).map Prod.fst := by
      simp [Function.comp]
    rw [this, enumFrom_map_snd]

/-- C10 witness: the invariants applied at a concrete run, reading off the
membership-based clauses at the produced row. -/
theorem claim10_report_invariants_witness :
    ((ocrProcess "" [] [] [(0, "Origin", "Plant A")]).1.headD
        ⟨"", "", "", "", "", ""⟩).barcode_label = "" := by
  have h := (claim10_report_invariants.1 "" [] [] [(0, "Origin", "Plant A")]).2.2.2.2.2.2.2
  exact (h ⟨"Origin", "Plant A", "", "", "MISSING", ""⟩ (by decide) (by decide)).1

/-! ### Lemmas for the assignment solvers -/

/-- What `greedyScan` guarantees about a returned best cell. -/
def GoodBest (C : List (List ℚ)) (uI uJ : List Nat) : Option (Nat × Nat × ℚ) → Prop
  | none => True
  | some (i, j, c) => i ∉ uI ∧ j ∉ uJ ∧ i < C.length ∧ j < colsOf C ∧ c = costAt C i j

lemma betterOf_good (C : List (List ℚ)) (uI uJ : List Nat)
    (best : Option (Nat × Nat × ℚ)) (i j : Nat)
    (hi : i ∉ uI) (hj : j ∉ uJ) (hiM : i < C.length) (hjN : j < colsOf C)
    (hb : GoodBest C uI uJ best) :
    GoodBest C uI uJ (betterOf best i j (costAt C i j)) := by
  rcases best with _ | ⟨bi, bj, bc⟩
  · exact ⟨hi, hj, hiM, hjN, rfl⟩
  · show GoodBest C uI uJ
      (if costAt C i j < bc then some (i, j, costAt C i j) else some (bi, bj, bc))
    split
    · exact ⟨hi, hj, hiM, hjN, rfl⟩
    · exact hb

lemma scanRow_good (C : List (List ℚ)) (uI uJ : List Nat) (i : Nat)
    (hi : i ∉ uI) (hiM : i < C.length) :
    ∀ (js : List Nat) (best : Option (Nat × Nat × ℚ)),
      (∀ j ∈ js, j < colsOf C) → GoodBest C uI uJ best →
      GoodBest C uI uJ (scanRow C uJ i js best) := by
  intro js
  induction js with
  | nil => intro best _ hb; exact hb
  | cons j js ih =>
      intro best hjs hb
      unfold scanRow
      by_cases hj : j ∈ uJ
      · simp only [if_pos hj]
        exact ih best (fun x hx => hjs x (List.mem_cons_of_mem _ hx)) hb
      · simp only [if_neg hj]
        exact ih _ (fun x hx => hjs x (List.mem_cons_of_mem _ hx))
          (betterOf_good C uI uJ best i j hi hj hiM (hjs j (List.mem_cons_self _ _)) hb)

lemma scanAll_good (C : List (List ℚ)) (uI uJ : List Nat) :
    ∀ (is : List Nat) (best : Option (Nat × Nat × ℚ)),
      (∀ i ∈ is, i < C.length) → GoodBest C uI uJ best →
      GoodBest C uI uJ (scanAll C uI uJ is best) := by
  intro is
  induction is with
  | nil => intro best _ hb; exact hb
  | cons i is ih =>
      intro best his hb
      unfold scanAll
      by_cases hi : i ∈ uI
      · simp only [if_pos hi]
        exact ih best (fun x hx => his x (List.mem_cons_of_mem _ hx)) hb
      · simp only [if_neg hi]
        refine ih _ (fun x hx => his x (List.mem_cons_of_mem _ hx)) ?_
        exact scanRow_good C uI uJ i hi (his i (List.mem_cons_self _ _))
          (List.range (colsOf C)) best (fun j hj => List.mem_range.mp hj) hb

lemma greedyScan_good (C : List (List ℚ)) (uI uJ : List Nat) (i j : Nat) (c : ℚ)
    (h : greedyScan C uI uJ = some (i, j, c)) :
    i ∉ uI ∧ j ∉ uJ ∧ i < C.length ∧ j < colsOf C ∧ c = costAt C i j := by
  have := scanAll_good C uI uJ (List.range C.length) none
    (fun x hx => List.mem_range.mp hx) trivial
  rw [greedyScan] at h
  rw [h] at this
  exact this

lemma greedyAssignGo_good (C : List (List ℚ)) (thresh : ℚ) :
    ∀ (fuel : Nat) (uI uJ : List Nat),
      (∀ ij ∈ greedyAssignGo C thresh fuel uI uJ,
        ij.1 ∉ uI ∧ ij.2 ∉ uJ ∧ ij.1 < C.length ∧ ij.2 < colsOf C ∧
          costAt C ij.1 ij.2 ≤ thresh) ∧
      ((greedyAssignGo C thresh fuel uI uJ).map Prod.fst).Nodup ∧
      ((greedyAssignGo C thresh fuel uI uJ).map Prod.snd).Nodup := by
  intro fuel
  induction fuel with
  | zero => intro uI uJ; simp [greedyAssignGo]
  | succ f ih =>
      intro uI uJ
      unfold greedyAssignGo
      rcases hscan : greedyScan C uI uJ with _ | ⟨i, j, c⟩
      · simp
      · obtain ⟨hiu, hju, hiM, hjN, hc⟩ := greedyScan_good C uI uJ i j c hscan
        by_cases hth : c > thresh
        · simp [hth]
        · simp only [if_neg hth]
          obtain ⟨ihMem, ihF, ihS⟩ := ih (i :: uI) (j :: uJ)
          refine ⟨?_, ?_, ?_⟩
          · intro ij hij
            rcases List.mem_cons.mp hij with h | h
            · subst h
              exact ⟨hiu, hju, hiM, hjN, hc ▸ le_of_not_lt hth⟩
            · obtain ⟨h1, h2, h3, h4, h5⟩ := ihMem ij h
              exact ⟨fun hx => h1 (List.mem_cons_of_mem _ hx),
                fun hx => h2 (List.mem_cons_of_mem _ hx), h3, h4, h5⟩
          · simp only [List.map_cons, List.nodup_cons]
            refine ⟨?_, ihF⟩
            intro hmem
            obtain ⟨ij, hij, hfst⟩ := List.mem_map.mp hmem
            exact (ihMem ij hij).1 (hfst ▸ List.mem_cons_self i uI)
          · simp only [List.map_cons, List.nodup_cons]
            refine ⟨?_, ihS⟩
            intro hmem
            obtain ⟨ij, hij, hsnd⟩ := List.mem_map.mp hmem
            exact (ihMem ij hij).2.1 (hsnd ▸ List.mem_cons_self j uJ)

lemma zip_map_fst_sublist {α β : Type} :
    ∀ (l1 : List α) (l2 : List β), ((l1.zip l2).map Prod.fst).Sublist l1 := by
  intro l1
  induction l1 with
  | nil => intro l2; simp
  | cons x xs ih =>
      intro l2
      cases l2 with
      | nil => simp
      | cons y ys => simpa using List.Sublist.cons₂ x (ih ys)

lemma zip_map_snd_sublist {α β : Type} :
    ∀ (l1 : List α) (l2 : List β), ((l1.zip l2).map Prod.snd).Sublist l2 := by
  intro l1
  induction l1 with
  | nil => intro l2; simp
  | cons x xs ih =>
      intro l2
      cases l2 with
      | nil => simp
      | cons y ys => simpa using List.Sublist.cons₂ y (ih ys)

/-- C1: both solver paths produce a partial injective assignment respecting
the acceptance threshold.  For the greedy fallback: distinct expected-field
indices, distinct candidate-pair indices, indices in range, and every
selected cost at most `assign_thresh`.  For the optimal (SciPy) path, whose
solver returns arrays of pairwise-distinct row and column indices, the
post-filter keeps injectivity and admits exactly the pairs with cost at
most the threshold, rejecting every over-threshold pairing. -/
theorem claim1_assignment_injective :
    (∀ (C : List (List ℚ)) (thresh : ℚ),
      ((greedyAssign C thresh).map Prod.fst).Nodup ∧
      ((greedyAssign C thresh).map Prod.snd).Nodup ∧
      (∀ ij ∈ greedyAssign C thresh,
        ij.1 < C.length ∧ ij.2 < colsOf C ∧ costAt C ij.1 ij.2 ≤ thresh)) ∧
    (∀ (C : List (List ℚ)) (thresh : ℚ) (ri cj : List Nat),
      ri.Nodup → cj.Nodup →
      ((hungarianFilter C thresh ri cj).map Prod.fst).Nodup ∧
      ((hungarianFilter C thresh ri cj).map Prod.snd).Nodup ∧
      (∀ ij ∈ hungarianFilter C thresh ri cj, costAt C ij.1 ij.2 ≤ thresh) ∧
      (∀ ij ∈ ri.zip cj, costAt C ij.1 ij.2 > thresh →
        ij ∉ hungarianFilter C thresh ri cj)) := by
  constructor
  · intro C thresh
    obtain ⟨hMem, hF, hS⟩ := greedyAssignGo_good C thresh C.length [] []
    exact ⟨hF, hS, fun ij hij => ⟨(hMem ij hij).2.2.1, (hMem ij hij).2.2.2.1,
      (hMem ij hij).2.2.2.2⟩⟩
  · intro C thresh ri cj hri hcj
    have hsub : (hungarianFilter C thresh ri cj).Sublist (ri.zip cj) :=
      List.filter_sublist _
    refine ⟨?_, ?_, ?_, ?_⟩
    · exact List.Nodup.sublist ((hsub.map Prod.fst).trans (zip_map_fst_sublist ri cj)) hri
    · exact List.Nodup.sublist ((hsub.map Prod.snd).trans (zip_map_snd_sublist ri cj)) hcj
    · intro ij hij
      have := (List.mem_filter.mp hij).2
      exact of_decide_eq_true this
    · intro ij _ hgt hmem
      have := of_decide_eq_true (List.mem_filter.mp hmem).2
      exact absurd this (not_le_of_gt hgt)

/-- C1 witness: the SciPy-path clauses applied at a concrete matrix with the
Nodup hypotheses discharged. -/
theorem claim1_assignment_injective_witness :
    ((hungarianFilter [[(0 : ℚ)]] 1 [0] [0]).map Prod.fst).Nodup ∧
    (∀ ij ∈ hungarianFilter [[(0 : ℚ)]] 1 [0] [0], costAt [[(0 : ℚ)]] ij.1 ij.2 ≤ 1) := by
  have h := claim1_assignment_injective.2 [[(0 : ℚ)]] 1 [0] [0] (by decide) (by decide)
  exact ⟨h.1, h.2.2.1⟩

/-! ### Lemmas for the library diff -/

instance : IsTotal Missed missedLE :=
  ⟨by
    intro a b
    rcases Nat.lt_trichotomy (orderIdx a.cls) (orderIdx b.cls) with h | h | h
    · exact Or.inl (Or.inl h)
    · rcases le_total a.value b.value with hv | hv
      · exact Or.inl (Or.inr ⟨h, hv⟩)
      · exact Or.inr (Or.inr ⟨h.symm, hv⟩)
    · exact Or.inr (Or.inl h)⟩

instance : IsTrans Missed missedLE :=
  ⟨by
    intro a b c hab hbc
    rcases hab with h1 | ⟨h1, hv1⟩ <;> rcases hbc with h2 | ⟨h2, hv2⟩
    · exact Or.inl (h1.trans h2)
    · exact Or.inl (h2 ▸ h1)
    · exact Or.inl (h1 ▸ h2)
    · exact Or.inr ⟨h1.trans h2, le_trans hv1 hv2⟩⟩

lemma missedPre_mem (consumed : List String) :
    ∀ (libMap : List ((String × String) × List BP)) (m : Missed),
      m ∈ missedPre consumed libMap ↔
        ∃ e ∈ libMap,
          (e.2.filter fun x => !equalsAnyConsumed consumed x.value) ≠ [] ∧
          m = ⟨e.1.2,
            dedupKeepFirst []
              ((e.2.filter fun x => !equalsAnyConsumed consumed x.value).map
                labelOrUnlabeled),
            ((e.2.filter fun x => !equalsAnyConsumed consumed x.value).headD
              ⟨"", ""⟩).value,
            (e.2.filter fun x => !equalsAnyConsumed consumed x.value).length⟩ := by
  intro libMap
  induction libMap with
  | nil => intro m; simp [missedPre]
  | cons e rest ih =>
      intro m
      unfold missedPre
      by_cases hk : ((e.2.filter fun x => !equalsAnyConsumed consumed x.value).isEmpty)
      · rw [if_pos hk]
        rw [List.isEmpty_iff] at hk
        simp only [List.mem_cons, ih m]
        constructor
        · rintro ⟨e', he', hne, hm⟩
          exact ⟨e', Or.inr he', hne, hm⟩
        · rintro ⟨e', he' | he', hne, hm⟩
          · subst he'; exact absurd hk hne
          · exact ⟨e', he', hne, hm⟩
      · rw [if_neg hk]
        rw [List.isEmpty_iff] at hk
        simp only [List.mem_cons, ih m]
        constructor
        · rintro (rfl | ⟨e', he', hne, hm⟩)
          · exact ⟨e, Or.inl rfl, hk, rfl⟩
          · exact ⟨e', Or.inr he', hne, hm⟩
        · rintro ⟨e', he' | he', hne, hm⟩
          · subst he'; exact Or.inl hm
          · exact Or.inr ⟨e', he', hne, hm⟩

/-- C9: the missed-by-OCR list contains exactly one entry per library
multimap group whose kept sub-list (values not flexibly equal to any
consumed value) is non-empty, carrying that group's class, de-duplicated
label set, first kept value and kept-occurrence count; and the output is
sorted by the fixed class priority with ties broken by value. -/
theorem claim9_library_diff :
    ∀ (libMap : List ((String × String) × List BP)) (consumed : List String),
      (∀ m : Missed,
        m ∈ libraryRemainingToList libMap consumed ↔
          ∃ e ∈ libMap,
            (e.2.filter fun x => !equalsAnyConsumed consumed x.value) ≠ [] ∧
            m = ⟨e.1.2,
              dedupKeepFirst []
                ((e.2.filter fun x => !equalsAnyConsumed consumed x.value).map
                  labelOrUnlabeled),
              ((e.2.filter fun x => !equalsAnyConsumed consumed x.value).headD
                ⟨"", ""⟩).value,
              (e.2.filter fun x => !equalsAnyConsumed consumed x.value).length⟩) ∧
      List.Sorted missedLE (libraryRemainingToList libMap consumed) := by
  intro libMap consumed
  constructor
  · intro m
    unfold libraryRemainingToList
    rw [(List.perm_insertionSort missedLE (missedPre consumed libMap)).mem_iff]
    exact missedPre_mem consumed libMap m
  · exact List.sorted_insertionSort missedLE (missedPre consumed libMap)

/-! ### Bounds for the SequenceMatcher model

The goal is `matchesSum ≤ min (ahi - alo) (bhi - blo)`, which gives
`ratio ∈ [0, 1]` and hence `labels_match ∈ [0, 1]` and the C6 range. -/

/-- The in-range invariant of a candidate block `(i, j, k)`. -/
def FlmB (alo ahi blo bhi : Nat) (t : Nat × Nat × Nat) : Prop :=
  alo ≤ t.1 ∧ t.1 + t.2.2 ≤ ahi ∧ blo ≤ t.2.1 ∧ t.2.1 + t.2.2 ≤ bhi

lemma FlmB_mk (alo ahi blo bhi x y z : Nat) (h1 : alo ≤ x) (h2 : x + z ≤ ahi)
    (h3 : blo ≤ y) (h4 : y + z ≤ bhi) : FlmB alo ahi blo bhi (x, y, z) :=
  ⟨h1, h2, h3, h4⟩

lemma FlmB_elim {alo ahi blo bhi x y z : Nat} (h : FlmB alo ahi blo bhi (x, y, z)) :
    alo ≤ x ∧ x + z ≤ ahi ∧ blo ≤ y ∧ y + z ≤ bhi := h

lemma jsFor_mem (b : List Char) (blo bhi : Nat) (c : Char) (j : Nat)
    (h : j ∈ jsFor b blo bhi c) : blo ≤ j ∧ j < bhi := by
  have := (List.mem_filter.mp h).2
  simp at this
  exact this

lemma rowBest_good (alo ahi blo bhi : Nat) (prev : Nat → Nat) (i : Nat)
    (hprev1 : ∀ j, prev j ≤ i - alo)
    (hprev2 : ∀ j, prev j ≠ 0 → blo ≤ j ∧ j < bhi ∧ prev j + blo ≤ j + 1)
    (hi1 : alo ≤ i) (hi2 : i < ahi) :
    ∀ (js : List Nat) (best : Nat × Nat × Nat),
      (∀ j ∈ js, blo ≤ j ∧ j < bhi) → FlmB alo ahi blo bhi best →
      FlmB alo ahi blo bhi (rowBest prev i js best) := by
  intro js
  induction js with
  | nil => intro best _ hb; exact hb
  | cons j js ih =>
      intro best hjs hb
      unfold rowBest
      set k := (if j = 0 then 0 else prev (j - 1)) + 1 with hk
      obtain ⟨hj1, hj2⟩ := hjs j (List.mem_cons_self _ _)
      have hkle1 : k ≤ i + 1 - alo := by
        rcases Nat.eq_zero_or_pos j with hj0 | hjpos
        · subst hj0; simp [hk]; omega
        · have : j ≠ 0 := Nat.pos_iff_ne_zero.mp hjpos
          rw [hk, if_neg this]
          have := hprev1 (j - 1)
          omega
      have hkle2 : k + blo ≤ j + 1 := by
        rcases Nat.eq_zero_or_pos j with hj0 | hjpos
        · subst hj0; simp [hk]; omega
        · have hjne : j ≠ 0 := Nat.pos_iff_ne_zero.mp hjpos
          rw [hk, if_neg hjne]
          by_cases hp : prev (j - 1) = 0
          · rw [hp]; omega
          · have := (hprev2 (j - 1) hp).2.2
            omega
      refine ih _ (fun x hx => hjs x (List.mem_cons_of_mem _ hx)) ?_
      split
      · exact FlmB_mk _ _ _ _ _ _ _ (by omega) (by omega) (by omega) (by omega)
      · exact hb

lemma nextRow_good (blo bhi : Nat) (prev : Nat → Nat) (js : List Nat) (t : Nat)
    (hprev1 : ∀ j, prev j ≤ t)
    (hprev2 : ∀ j, prev j ≠ 0 → blo ≤ j ∧ j < bhi ∧ prev j + blo ≤ j + 1)
    (hjs : ∀ j ∈ js, blo ≤ j ∧ j < bhi) :
    (∀ j, nextRow prev js j ≤ t + 1) ∧
    (∀ j, nextRow prev js j ≠ 0 →
      blo ≤ j ∧ j < bhi ∧ nextRow prev js j + blo ≤ j + 1) := by
  constructor
  · intro j
    unfold nextRow
    split
    · split
      · omega
      · have := hprev1 (j - 1); omega
    · omega
  · intro j hne
    unfold nextRow at hne ⊢
    by_cases hmem : j ∈ js
    · rw [if_pos hmem] at hne ⊢
      obtain ⟨hj1, hj2⟩ := hjs j hmem
      refine ⟨hj1, hj2, ?_⟩
      rcases Nat.eq_zero_or_pos j with hj0 | hjpos
      · subst hj0; simp; omega
      · have hjne : j ≠ 0 := Nat.pos_iff_ne_zero.mp hjpos
        rw [if_neg hjne]
        by_cases hp : prev (j - 1) = 0
        · rw [hp]; omega
        · have := (hprev2 (j - 1) hp).2.2
          omega
    · rw [if_neg hmem] at hne
      exact absurd rfl hne

lemma flmLoop_good (a b : List Char) (alo ahi blo bhi : Nat) :
    ∀ (n i0 : Nat) (prev : Nat → Nat) (best : Nat × Nat × Nat),
      alo ≤ i0 → i0 + n ≤ ahi →
      (∀ j, prev j ≤ i0 - alo) →
      (∀ j, prev j ≠ 0 → blo ≤ j ∧ j < bhi ∧ prev j + blo ≤ j + 1) →
      FlmB alo ahi blo bhi best →
      FlmB alo ahi blo bhi (flmLoop a b blo bhi (List.range' i0 n) prev best) := by
  intro n
  induction n with
  | zero => intro i0 prev best _ _ _ _ hb; exact hb
  | succ m ih =>
      intro i0 prev best hi0 hn hprev1 hprev2 hb
      rw [List.range'_succ]
      unfold flmLoop
      have hjs : ∀ j ∈ jsFor b blo bhi (a.getD i0 ' '), blo ≤ j ∧ j < bhi :=
        fun j hj => jsFor_mem b blo bhi _ j hj
      have hbest := rowBest_good alo ahi blo bhi prev i0 hprev1 hprev2 hi0
        (by omega) _ best hjs hb
      have hnext := nextRow_good blo bhi prev (jsFor b blo bhi (a.getD i0 ' '))
        (i0 - alo) hprev1 hprev2 hjs
      refine ih (i0 + 1) _ _ (by omega) (by omega) ?_ hnext.2 hbest
      intro j
      have := hnext.1 j
      omega

lemma extendBack_good (a b : List Char) (alo ahi blo bhi : Nat) :
    ∀ (fuel : Nat) (t : Nat × Nat × Nat),
      FlmB alo ahi blo bhi t →
      FlmB alo ahi blo bhi (extendBack a b alo blo fuel t) := by
  intro fuel
  induction fuel with
  | zero => intro t ht; exact ht
  | succ f ih =>
      intro t ht
      obtain ⟨bi, bj, bk⟩ := t
      unfold extendBack
      split
      · rename_i hcond
        simp only [Bool.and_eq_true, decide_eq_true_eq] at hcond
        refine ih _ ?_
        obtain ⟨h1, h2, h3, h4⟩ := FlmB_elim ht
        exact FlmB_mk _ _ _ _ _ _ _ (by omega) (by omega) (by omega) (by omega)
      · exact ht

lemma extendFwd_good (a b : List Char) (alo ahi blo bhi : Nat) :
    ∀ (fuel : Nat) (t : Nat × Nat × Nat),
      FlmB alo ahi blo bhi t →
      FlmB alo ahi blo bhi (extendFwd a b ahi bhi fuel t) := by
  intro fuel
  induction fuel with
  | zero => intro t ht; exact ht
  | succ f ih =>
      intro t ht
      obtain ⟨bi, bj, bk⟩ := t
      unfold extendFwd
      split
      · rename_i hcond
        simp only [Bool.and_eq_true, decide_eq_true_eq] at hcond
        refine ih _ ?_
        obtain ⟨h1, h2, h3, h4⟩ := FlmB_elim ht
        exact FlmB_mk _ _ _ _ _ _ _ (by omega) (by omega) (by omega) (by omega)
      · exact ht

lemma findLongestMatch_good (a b : List Char) (alo ahi blo bhi : Nat)
    (h1 : alo ≤ ahi) (h2 : blo ≤ bhi) :
    FlmB alo ahi blo bhi (findLongestMatch a b alo ahi blo bhi) := by
  unfold findLongestMatch
  apply extendFwd_good
  apply extendBack_good
  apply flmLoop_good a b alo ahi blo bhi (ahi - alo) alo (fun _ => 0) (alo, blo, 0)
    le_rfl (by omega) (fun j => Nat.zero_le _) (fun j hj => absurd rfl hj)
  exact FlmB_mk _ _ _ _ _ _ _ le_rfl (by omega) le_rfl (by omega)

lemma matchesSum_le (a b : List Char) :
    ∀ (fuel alo ahi blo bhi : Nat), alo ≤ ahi → blo ≤ bhi →
      matchesSum a b fuel alo ahi blo bhi ≤ ahi - alo ∧
      matchesSum a b fuel alo ahi blo bhi ≤ bhi - blo := by
  intro fuel
  induction fuel with
  | zero => intro alo ahi blo bhi _ _; simp [matchesSum]
  | succ f ih =>
      intro alo ahi blo bhi h1 h2
      have hg := findLongestMatch_good a b alo ahi blo bhi h1 h2
      rcases hT : findLongestMatch a b alo ahi blo bhi with ⟨i, j, k⟩
      rw [hT] at hg
      obtain ⟨g1, g2, g3, g4⟩ := FlmB_elim hg
      unfold matchesSum
      rw [hT]
      simp only []
      by_cases hk : k = 0
      · simp [hk]
      · rw [if_neg hk]
        by_cases hL : alo < i ∧ blo < j <;> by_cases hR : i + k < ahi ∧ j + k < bhi
        · rw [if_pos hL, if_pos hR]
          have l := ih alo i blo j (by omega) (by omega)
          have r := ih (i + k) ahi (j + k) bhi (by omega) (by omega)
          constructor <;> omega
        · rw [if_pos hL, if_neg hR]
          have l := ih alo i blo j (by omega) (by omega)
          constructor <;> omega
        · rw [if_neg hL, if_pos hR]
          have r := ih (i + k) ahi (j + k) bhi (by omega) (by omega)
          constructor <;> omega
        · rw [if_neg hL, if_neg hR]
          constructor <;> omega

lemma smRatio_nonneg (a b : List Char) : 0 ≤ smRatio a b := by
  unfold smRatio
  split
  · norm_num
  · positivity

lemma smRatio_le_one (a b : List Char) : smRatio a b ≤ 1 := by
  unfold smRatio
  split
  · norm_num
  · rename_i h
    have hpos : 0 < a.length + b.length := Nat.pos_of_ne_zero h
    have hm := matchesSum_le a b (a.length + b.length + 1) 0 a.length 0 b.length
      (Nat.zero_le _) (Nat.zero_le _)
    rw [div_le_one (by exact_mod_cast hpos)]
    have h2 : 2 * matchesSum a b (a.length + b.length + 1) 0 a.length 0 b.length ≤
        a.length + b.length := by omega
    exact_mod_cast h2

lemma labelsMatch_nonneg (k l : String) : 0 ≤ labelsMatch k l := by
  unfold labelsMatch
  simp only []
  split
  · norm_num
  · split
    · norm_num
    · exact smRatio_nonneg _ _

lemma labelsMatch_le_one (k l : String) : labelsMatch k l ≤ 1 := by
  unfold labelsMatch
  simp only []
  split
  · norm_num
  · split
    · norm_num
    · exact smRatio_le_one _ _

/-- C6: `pair_cost` is exactly the weighted sum
`0.6*labelCost + 0.35*valueCost + 0.05*classPenalty` with the documented
case analyses for the value cost and the class penalty, and its result
always lies in `[0, 1]`. -/
theorem claim6_pair_cost :
    ∀ (ocrKey ocrVal : String) (p : BP),
      pairCost ocrKey ocrVal p =
        0.6 * (1 - labelsMatch ocrKey p.label) +
        0.35 * (if equalStrictOrFlexible ocrVal p.value then (0 : ℚ)
                else if valueIsSubstringToken ocrVal p.value then 0.75 else 1) +
        0.05 * (if classifyValue ocrVal = classifyValue p.value ∨
                  (pyTest fullTimeRE ocrVal && pyTest fullTimeRE p.value) = true ∨
                  (pyTest dateRE ocrVal && pyTest dateRE p.value) = true
                then (0 : ℚ) else 0.25) ∧
      0 ≤ pairCost ocrKey ocrVal p ∧ pairCost ocrKey ocrVal p ≤ 1 := by
  intro ocrKey ocrVal p
  have hs1 := labelsMatch_nonneg ocrKey p.label
  have hs2 := labelsMatch_le_one ocrKey p.label
  have hv : (0 : ℚ) ≤ (if equalStrictOrFlexible ocrVal p.value then (0 : ℚ)
        else if valueIsSubstringToken ocrVal p.value then 0.75 else 1) ∧
      (if equalStrictOrFlexible ocrVal p.value then (0 : ℚ)
        else if valueIsSubstringToken ocrVal p.value then 0.75 else 1) ≤ 1 := by
    split
    · norm_num
    · split <;> norm_num
  have ht : (0 : ℚ) ≤ (if classifyValue ocrVal = classifyValue p.value ∨
          (pyTest fullTimeRE ocrVal && pyTest fullTimeRE p.value) = true ∨
          (pyTest dateRE ocrVal && pyTest dateRE p.value) = true
        then (0 : ℚ) else 0.25) ∧
      (if classifyValue ocrVal = classifyValue p.value ∨
          (pyTest fullTimeRE ocrVal && pyTest fullTimeRE p.value) = true ∨
          (pyTest dateRE ocrVal && pyTest dateRE p.value) = true
        then (0 : ℚ) else 0.25) ≤ 0.25 := by
    split <;> norm_num
  refine ⟨rfl, ?_, ?_⟩
  · show (0 : ℚ) ≤ 0.6 * (1 - labelsMatch ocrKey p.label) + 0.35 * _ + 0.05 * _
    nlinarith [hv.1, ht.1]
  · show 0.6 * (1 - labelsMatch ocrKey p.label) + 0.35 * _ + 0.05 * _ ≤ (1 : ℚ)
    nlinarith [hv.2, ht.2]

/-- C3 counterexample: the claim asserts
`equalStrictOrFlexible "2:30 PM" "14:30:00"` returns true, but the source
returns false on exactly this input. -/
theorem claim3_counterexample :
    ¬ (equalStrictOrFlexible "2:30 PM" "14:30:00" = true) := by decide

/-- C3 (amended): `equalStrictOrFlexible "2:30 PM" "14:30:00"` returns
false — both sides parse to 24-hour `(14, 30)`, but the left side carries a
PM meridian while the right side carries none, and `times_equal_flexible`
requires both sides to carry a meridian whenever either does. -/
theorem claim3_time_meridian_required :
    equalStrictOrFlexible "2:30 PM" "14:30:00" = false ∧
    normTimeTupleFull "2:30 PM" = some (14, 30, 0, some "PM") ∧
    normTimeTupleFull "14:30:00" = some (14, 30, 0, none) ∧
    timesEqualFlexible "2:30 PM" "14:30:00" = false := by
  refine ⟨by decide, by decide, by decide, by decide⟩

/-- C4: over all strings, the source's `times_equal_flexible` agrees with
the spec's characterisation (both sides fully parse, 24-hour hour and
minute equal, meridian condition); strings that do not both fully match the
strict grammar are never time-equal; and in particular
`times_equal_flexible "2:30 PM" "2:30 AM"` is false. -/
theorem claim4_time_equivalence :
    (∀ a b : String, timesEqualFlexible a b = timesEqualSpec a b) ∧
    (∀ a b : String,
      normTimeTupleFull a = none ∨ normTimeTupleFull b = none →
        timesEqualFlexible a b = false) ∧
    timesEqualFlexible "2:30 PM" "2:30 AM" = false := by
  refine ⟨?_, ?_, by decide⟩
  · intro a b
    unfold timesEqualFlexible timesEqualSpec
    rcases ha : normTimeTupleFull a with _ | ⟨ah, am, as2, amer⟩ <;>
      rcases hb : normTimeTupleFull b with _ | ⟨bh, bm, bs2, bmer⟩ <;> simp
    rcases amer with _ | x <;> rcases bmer with _ | y <;> simp <;>
      first
      | done
      | (by_cases hxy : x = y <;> simp [hxy])
  · intro a b h
    unfold timesEqualFlexible
    rcases h with h | h <;> simp [h]

/-- C4 witness: the theorem applied at concrete inputs; `"x"` does not parse
as a strict time, so the pair is not time-equal. -/
theorem claim4_time_equivalence_witness :
    timesEqualFlexible "x" "2:30" = false :=
  claim4_time_equivalence.2.1 "x" "2:30" (Or.inl (by decide))

/-- C5: the date-flexible branch of `equal_strict_or_flexible` accepts both
separator variation and the day/month-swap heuristic, which applies to
either argument: `"13/04/2024"` and `"04/13/2024"` both normalise to
`(2024, 4, 13)`. -/
theorem claim5_date_flexible :
    equalStrictOrFlexible "03/04/2024" "3-4-2024" = true ∧
    equalStrictOrFlexible "13/04/2024" "04/13/2024" = true ∧
    normDateTuple "13/04/2024" = some (2024, 4, 13) ∧
    normDateTuple "04/13/2024" = some (2024, 4, 13) ∧
    normDateTuple "03/04/2024" = some (2024, 3, 4) ∧
    normDateTuple "3-4-2024" = some (2024, 3, 4) := by
  refine ⟨by decide, by decide, by decide, by decide, by decide, by decide⟩

/-- C7: `classify_value` is total with values in the fixed ten-class
taxonomy, and the ordered first-match-wins cascade yields the six
documented classifications. -/
theorem claim7_classify :
    (∀ v : String,
      classifyValue v ∈ ["empty", "time", "date", "truck", "wh", "rack",
        "alnum_long", "code_short", "small_int", "string"]) ∧
    classifyValue "10:15 AM" = "time" ∧
    classifyValue "04/25/2024" = "date" ∧
    classifyValue "TRK-1234" = "truck" ∧
    classifyValue "WH-07" = "wh" ∧
    classifyValue "A12B34C5" = "alnum_long" ∧
    classifyValue "7" = "small_int" := by
  refine ⟨?_, by decide, by decide, by decide, by decide, by decide, by decide⟩
  intro v
  unfold classifyValue
  repeat' split
  all_goals simp
example : normTimeTupleFull "14:30:00" = some (14, 30, 0, none) := by decide
example : timesEqualFlexible "2:30 PM" "14:30:00" = false := by decide
example : equalStrictOrFlexible "03/04/2024" "3-4-2024" = true := by decide
example : equalStrictOrFlexible "13/04/2024" "04/13/2024" = true := by decide
example : classifyValue "10:15 AM" = "time" := by decide
example : classifyValue "TRK-1234" = "truck" := by decide
example : classifyValue "WH-07" = "wh" := by decide
example : classifyValue "A12B34C5" = "alnum_long" := by decide
example : classifyValue "7" = "small_int" := by decide
example : classifyValue "04/25/2024" = "date" := by decide
example : findValueInTextStrict "WH-0" "WH-07" = none := by decide
example : findValueInTextStrict "Plant A" "x  Plant   a!" = some (3, 12, "Plant   a") := by decide
